import Mathlib

/-!
Verification of the BLE bulk-transfer protocol core (sender state machine,
receiver reassembly session, and wire codec) against its specification.

The receiver side is a shallow embedding of `transfer_session.cpp`
(`transfer_session_process_chunk` and its helpers), the codec of
`crc32.cpp` / `compression.cpp`, and the sender side of
`app_data_transfer.c`.  Byte buffers are lists of naturals (each < 256 for
well-formed input), C `std::map` values are association lists with
insert-or-replace, and outward callbacks are modelled as an event list
returned by each operation.
-/

namespace BLETransfer

/-! ## Little-endian byte assembly (the `data[0] | (data[1] << 8) | ...` idiom) -/

/-- Little-endian 16-bit assembly, exactly the C expression
`data[0] | (data[1] << 8)`. -/
def le16 (b0 b1 : Nat) : Nat := b0 ||| (b1 <<< 8)

/-- Little-endian 24-bit assembly, `b0 | (b1 << 8) | (b2 << 16)`. -/
def le24 (b0 b1 b2 : Nat) : Nat := b0 ||| (b1 <<< 8) ||| (b2 <<< 16)

/-- Little-endian 32-bit assembly, `b0 | (b1 << 8) | (b2 << 16) | (b3 << 24)`. -/
def le32 (b0 b1 b2 b3 : Nat) : Nat := b0 ||| (b1 <<< 8) ||| (b2 <<< 16) ||| (b3 <<< 24)

/-- Two's-complement reinterpretation of a 16-bit pattern as a signed value:
the effect of the C casts to `int16_t` (used for `temperature_cx10` and for
the `memcpy` into an `int16_t` delta). -/
def toInt16 (v : Nat) : Int :=
  if v % 65536 < 32768 then ((v % 65536 : Nat) : Int)
  else ((v % 65536 : Nat) : Int) - 65536

/-! ## Protocol constants (`protocol.h`) -/

def TOTAL_BLOCKS : Nat := 1800
def BLOCK_SIZE : Nat := 7168
def ACK_INTERVAL : Nat := 20
def SAMPLES_PER_WAVEFORM : Nat := 2376
def WAVEFORM_HEADER_SIZE : Nat := 38

/-! ## CRC-32 (`crc32.cpp`) -/

/-- One bit-round of the CRC loop:
`if (crc & 1) crc = (crc >> 1) ^ 0xEDB88320; else crc >>= 1;`. -/
def crc32_round (crc : Nat) : Nat :=
  if crc &&& 1 = 1 then (crc >>> 1) ^^^ 0xEDB88320 else crc >>> 1

/-- Fold one byte into the running CRC (xor then eight bit-rounds). -/
def crc32_update_byte (crc b : Nat) : Nat := crc32_round^[8] (crc ^^^ b)

/-- The source `calculate_crc32_data`: init `0xFFFFFFFF`, per-byte update,
final complement (on `uint32_t`, `~crc = crc ^ 0xFFFFFFFF`). -/
def calculate_crc32_data (data : List Nat) : Nat :=
  (data.foldl crc32_update_byte 0xFFFFFFFF) ^^^ 0xFFFFFFFF

/-- The three packed little-endian bytes extracted from an `int32_t` sample in
`calculate_crc32_samples` (`sample & 0xFF`, `(sample >> 8) & 0xFF`,
`(sample >> 16) & 0xFF`); the two's-complement bit pattern of the signed
sample is `s mod 2^32`. -/
def sample_le_bytes (s : Int) : List Nat :=
  let u := (s % 4294967296).toNat
  [u &&& 255, (u >>> 8) &&& 255, (u >>> 16) &&& 255]

/-- The source `calculate_crc32_samples`: CRC over the packed 24-bit form of
the samples, three bytes per sample. -/
def calculate_crc32_samples (samples : List Int) : Nat :=
  (samples.foldl (fun crc s => (sample_le_bytes s).foldl crc32_update_byte crc) 0xFFFFFFFF)
    ^^^ 0xFFFFFFFF

/-! ## Waveform header and sample unpacking (`transfer_session.cpp`) -/

/-- The parsed 38-byte waveform header fields (`waveform_header_t`,
`data_types.h`), with the fields `parse_waveform_header` actually reads. -/
structure waveform_header where
  block_number : Nat
  timestamp_ms : Nat
  sample_rate_hz : Nat
  sample_count : Nat
  trigger_sample : Nat
  pulse_freq_hz : Nat
  temperature_cx10 : Int
  gain_db : Nat
  crc32 : Nat
deriving DecidableEq, Repr

/-- The source `parse_waveform_header`, reading little-endian fields at the
fixed offsets of the 38-byte layout. -/
def parse_waveform_header (data : List Nat) : waveform_header :=
  { block_number := le32 (data.getD 0 0) (data.getD 1 0) (data.getD 2 0) (data.getD 3 0)
    timestamp_ms := le32 (data.getD 4 0) (data.getD 5 0) (data.getD 6 0) (data.getD 7 0)
    sample_rate_hz := le32 (data.getD 8 0) (data.getD 9 0) (data.getD 10 0) (data.getD 11 0)
    sample_count := le16 (data.getD 12 0) (data.getD 13 0)
    trigger_sample := le16 (data.getD 16 0) (data.getD 17 0)
    pulse_freq_hz := le32 (data.getD 18 0) (data.getD 19 0) (data.getD 20 0) (data.getD 21 0)
    temperature_cx10 := toInt16 (le16 (data.getD 26 0) (data.getD 27 0))
    gain_db := data.getD 28 0
    crc32 := le32 (data.getD 30 0) (data.getD 31 0) (data.getD 32 0) (data.getD 33 0) }

/-- Sign extension in `unpack_24bit_samples`: when bit 23 is set,
`sample |= 0xFF000000` stores (as an `int32_t`) the value `v - 2^24`. -/
def sign_extend24 (v : Nat) : Int :=
  if v &&& 0x800000 = 0 then (v : Int) else (v : Int) - 16777216

/-- The source `unpack_24bit_samples`: each sample is three little-endian
bytes at offset `i * 3`, sign-extended from 24 bits. -/
def unpack_24bit_samples (sample_data : List Nat) (sample_count : Nat) : List Int :=
  (List.range sample_count).map (fun i =>
    sign_extend24 (le24 (sample_data.getD (i * 3) 0)
      (sample_data.getD (i * 3 + 1) 0) (sample_data.getD (i * 3 + 2) 0)))

/-! ## Decompression (`compression.cpp`)

The DEFLATE inflation itself is performed by the external zlib `uncompress`
call, which is not part of this repository; it is abstracted as an oracle
argument `inflate` returning `some` decompressed bytes on `Z_OK` (the
destination capacity is `4752`, so an overlong stream yields `none`,
matching `Z_BUF_ERROR`).  Everything around the call is translated from
`decompress_waveform`. -/

/-- Consecutive byte pairs of a buffer (the `buf[i*2]`, `buf[i*2+1]` reads). -/
def toPairs : List Nat → List (Nat × Nat)
  | b0 :: b1 :: rest => (b0, b1) :: toPairs rest
  | _ => []

/-- The delta-decode loop of `decompress_waveform`: each little-endian
16-bit delta is added to the running sample, starting from `prev`. -/
def delta_decode_from (prev : Int) : List (Nat × Nat) → List Int
  | [] => []
  | (b0, b1) :: rest =>
    let s := prev + toInt16 (le16 b0 b1)
    s :: delta_decode_from s rest

/-- The source `decompress_waveform`: inflate, require the decompressed size
to be exactly `2376 * 2 = 4752`, then delta-decode from a zero seed. -/
def decompress_waveform (inflate : List Nat → Option (List Nat))
    (compressed : List Nat) : Option (List Int) :=
  match inflate compressed with
  | none => none
  | some buf =>
    if buf.length = SAMPLES_PER_WAVEFORM * 2 then some (delta_decode_from 0 (toPairs buf))
    else none

/-- Specification-side characterization of the delta decode: sample `i` is
the sum of the first `i + 1` signed 16-bit deltas (running sum from a zero
seed). -/
def delta_decode_spec (buf : List Nat) : List Int :=
  (List.range SAMPLES_PER_WAVEFORM).map (fun i =>
    (((toPairs buf).take (i + 1)).map (fun p => toInt16 (le16 p.1 p.2))).sum)

/-! ## Block decode paths (`transfer_session.cpp`) -/

/-- The source `process_uncompressed_block`: requires at least header plus
`7128` raw sample bytes, parses the header, unpacks the samples.  `none`
models returning `false`. -/
def process_uncompressed_block (block_data : List Nat) :
    Option (waveform_header × List Int) :=
  if block_data.length < WAVEFORM_HEADER_SIZE + 7128 then none
  else some (parse_waveform_header block_data,
    unpack_24bit_samples (block_data.drop WAVEFORM_HEADER_SIZE) SAMPLES_PER_WAVEFORM)

/-- The source `process_compressed_block`: parse header, decompress the
remainder, verify the CRC of the reconstructed samples against the header. -/
def process_compressed_block (inflate : List Nat → Option (List Nat))
    (block_data : List Nat) : Option (waveform_header × List Int) :=
  if block_data.length < WAVEFORM_HEADER_SIZE then none
  else
    let header := parse_waveform_header block_data
    match decompress_waveform inflate (block_data.drop WAVEFORM_HEADER_SIZE) with
    | none => none
    | some samples =>
      if calculate_crc32_samples samples ≠ header.crc32 then none
      else some (header, samples)

/-! ## Association-list model of `std::map`

Keys are naturals; insertion with `operator[]` replaces the value when the
key is present and appends a fresh entry otherwise, so a map built this way
has distinct keys and `size()` is the list length. -/

/-- Lookup in an association list (`find` / `operator[]` read). -/
def alookup {α : Type} : List (Nat × α) → Nat → Option α
  | [], _ => none
  | (k, v) :: rest, key => if k = key then some v else alookup rest key

/-- Membership test (`find(key) != end()`). -/
def acontains {α : Type} (m : List (Nat × α)) (key : Nat) : Bool :=
  (alookup m key).isSome

/-- Insert-or-replace (`m[key] = v`). -/
def ainsert {α : Type} (m : List (Nat × α)) (key : Nat) (v : α) : List (Nat × α) :=
  if acontains m key then m.map (fun p => if p.1 = key then (key, v) else p)
  else m ++ [(key, v)]

/-- Update the value stored at a key that is present (`m[key]` mutation). -/
def amodify {α : Type} (m : List (Nat × α)) (key : Nat) (f : α → α) : List (Nat × α) :=
  m.map (fun p => if p.1 = key then (p.1, f p.2) else p)

/-- Erase a key (`m.erase(key)`). -/
def aerase {α : Type} (m : List (Nat × α)) (key : Nat) : List (Nat × α) :=
  m.filter (fun p => p.1 ≠ key)

/-! ## Receiver session (`transfer_session.cpp`) -/

/-- Outward callback invocations of the receiver, in invocation order. -/
inductive rx_event where
  | waveform (header : waveform_header) (samples : List Int) (is_compressed : Bool)
  | ack (block_number : Nat)
  | progress
  | completion
deriving DecidableEq, Repr

/-- The mutable state of `struct transfer_session` (callback pointers are
modelled as always installed; the wall-clock start time only feeds the
statistics snapshot and is omitted). -/
structure transfer_session where
  is_active : Bool
  received_blocks : List (Nat × List Nat)
  block_chunks : List (Nat × List (Nat × List Nat))
  block_expected_chunks : List (Nat × Nat)
  last_acked_block : Nat
  total_bytes_received : Nat
  total_chunks_received : Nat
deriving DecidableEq, Repr

/-- `transfer_session_create`. -/
def transfer_session_create : transfer_session :=
  { is_active := false, received_blocks := [], block_chunks := [],
    block_expected_chunks := [], last_acked_block := 0,
    total_bytes_received := 0, total_chunks_received := 0 }

/-- `transfer_session_start`: mark active and clear all per-session state. -/
def transfer_session_start (s : transfer_session) : transfer_session :=
  { s with
    is_active := true, received_blocks := [], block_chunks := [],
    block_expected_chunks := [], last_acked_block := 0,
    total_bytes_received := 0, total_chunks_received := 0 }

/-- `transfer_session_stop`: only clears the active flag. -/
def transfer_session_stop (s : transfer_session) : transfer_session :=
  { s with is_active := false }

/-- The reassembly loop: concatenate the stored chunks in index order; a
missing index reads as the empty vector (`operator[]` default-constructs). -/
def assemble_block (chunks : List (Nat × List Nat)) (total_chunks : Nat) : List Nat :=
  ((List.range total_chunks).map (fun i => (alookup chunks i).getD [])).flatten

/-- The source `transfer_session_process_chunk`.  Returns the new session
state, the callback events fired during the call, and the C `bool` result.
The payload extraction is the C++ `std::vector(data + 12, data + 12 + chunk_size)`,
which only stays inside the input buffer when
`12 + chunk_size ≤ data.length` (see `process_chunk_reads_in_bounds`); the
`take` clamp gives it a total semantics. -/
def transfer_session_process_chunk (inflate : List Nat → Option (List Nat))
    (s : transfer_session) (data : List Nat) :
    transfer_session × List rx_event × Bool :=
  if data.length < 12 then (s, [], false)
  else
    let block_number := le16 (data.getD 0 0) (data.getD 1 0)
    let chunk_number := le16 (data.getD 2 0) (data.getD 3 0)
    let chunk_size := le16 (data.getD 4 0) (data.getD 5 0)
    let total_chunks := le16 (data.getD 6 0) (data.getD 7 0)
    if TOTAL_BLOCKS ≤ block_number then (s, [], false)
    else
      let chunk_data := (data.drop 12).take chunk_size
      let bc0 := if acontains s.block_chunks block_number then s.block_chunks
        else s.block_chunks ++ [(block_number, [])]
      let bec0 := if acontains s.block_chunks block_number then s.block_expected_chunks
        else s.block_expected_chunks ++ [(block_number, total_chunks)]
      let bc1 := amodify bc0 block_number (fun inner => ainsert inner chunk_number chunk_data)
      let s1 := { s with
        block_chunks := bc1, block_expected_chunks := bec0,
        total_chunks_received := (s.total_chunks_received + 1) % 4294967296,
        total_bytes_received := (s.total_bytes_received + chunk_size) % 4294967296 }
      let inner := (alookup bc1 block_number).getD []
      if inner.length = total_chunks then
        let block_data := assemble_block inner total_chunks
        let is_compressed := decide (block_data.length < BLOCK_SIZE)
        let decoded := if is_compressed then process_compressed_block inflate block_data
          else process_uncompressed_block block_data
        let wevs := match decoded with
          | some (header, samples) => [rx_event.waveform header samples is_compressed]
          | none => []
        let rb := ainsert s1.received_blocks block_number block_data
        let s2 := { s1 with
          received_blocks := rb,
          block_chunks := aerase bc1 block_number,
          block_expected_chunks := aerase bec0 block_number }
        let aevs := if 0 < block_number ∧ (block_number + 1) % ACK_INTERVAL = 0 then
            [rx_event.ack block_number]
          else []
        if rb.length = TOTAL_BLOCKS then
          ({ s2 with is_active := false },
            wevs ++ aevs ++ [rx_event.progress, rx_event.completion], true)
        else
          (s2, wevs ++ aevs ++ [rx_event.progress], true)
      else (s1, [], true)

/-- Feed a list of chunk frames in order, accumulating the fired events. -/
def run_chunks (inflate : List Nat → Option (List Nat)) (s : transfer_session)
    (frames : List (List Nat)) : transfer_session × List rx_event :=
  frames.foldl (fun acc frame =>
    let r := transfer_session_process_chunk inflate acc.1 frame
    (r.1, acc.2 ++ r.2.1)) (s, [])

/-- The on-waveform invocations among a list of events. -/
def waveform_events : List rx_event → List (waveform_header × List Int × Bool)
  | [] => []
  | rx_event.waveform h smp c :: rest => (h, smp, c) :: waveform_events rest
  | _ :: rest => waveform_events rest

/-- Number of on-completion invocations among a list of events. -/
def count_completions : List rx_event → Nat
  | [] => 0
  | rx_event.completion :: rest => count_completions rest + 1
  | _ :: rest => count_completions rest

/-- Whether a call to `transfer_session_process_chunk` on this input touches
only bytes inside the input buffer: rejected frames (short or bad block
index) read at most the 12 header bytes; accepted frames read
`data + 12 .. data + 12 + chunk_size`, which is in bounds only when
`12 + chunk_size ≤ data.length`. -/
def process_chunk_reads_in_bounds (data : List Nat) : Bool :=
  if data.length < 12 then true
  else if TOTAL_BLOCKS ≤ le16 (data.getD 0 0) (data.getD 1 0) then true
  else decide (12 + le16 (data.getD 4 0) (data.getD 5 0) ≤ data.length)

/-- An inflate oracle that always fails (never consulted on the raw path;
any fixed oracle works for the concrete runs that never decode
successfully). -/
def inflate_none : List Nat → Option (List Nat) := fun _ => none

/-! ## Spec-side block encoding (§3 data model)

The 38-byte header serializer and the 24-bit sample packer are the layout
of §3 of the specification (the receiver-side `waveform_header_t`); the
packed sample bytes reuse the byte extraction of
`calculate_crc32_samples`. -/

/-- Little-endian 16-bit serialization. -/
def enc16 (v : Nat) : List Nat := [v % 256, v / 256 % 256]

/-- Little-endian 32-bit serialization. -/
def enc32 (v : Nat) : List Nat := [v % 256, v / 256 % 256, v / 65536 % 256, v / 16777216 % 256]

/-- Little-endian 16-bit serialization of a signed value (two's complement). -/
def encI16 (v : Int) : List Nat := enc16 (v % 65536).toNat

/-- Serialize the 38-byte waveform header per the §3 layout (reserved bytes
are zero). -/
def encode_waveform_header (h : waveform_header) : List Nat :=
  enc32 h.block_number ++ enc32 h.timestamp_ms ++ enc32 h.sample_rate_hz ++
  enc16 h.sample_count ++ enc16 0 ++ enc16 h.trigger_sample ++ enc32 h.pulse_freq_hz ++
  enc32 0 ++ encI16 h.temperature_cx10 ++ [h.gain_db % 256, 0] ++ enc32 h.crc32 ++ enc32 0

/-- Pack samples to their 24-bit little-endian wire form. -/
def pack_24bit_samples (samples : List Int) : List Nat :=
  (samples.map sample_le_bytes).flatten

/-- Field ranges under which the 38-byte header round-trips through the
wire (each field fits its layout slot). -/
def header_fields_valid (h : waveform_header) : Prop :=
  h.block_number < 4294967296 ∧ h.timestamp_ms < 4294967296 ∧
  h.sample_rate_hz < 4294967296 ∧ h.sample_count < 65536 ∧
  h.trigger_sample < 65536 ∧ h.pulse_freq_hz < 4294967296 ∧
  -32768 ≤ h.temperature_cx10 ∧ h.temperature_cx10 < 32768 ∧
  h.gain_db < 256 ∧ h.crc32 < 4294967296

instance : DecidablePred header_fields_valid := fun h => by
  unfold header_fields_valid; infer_instance

/-- A raw-encoded block: serialized header, packed samples, optional
padding bytes. -/
def raw_block_bytes (h : waveform_header) (samples : List Int) (pad : List Nat) : List Nat :=
  encode_waveform_header h ++ pack_24bit_samples samples ++ pad

/-! ## Chunking (sender `send_chunk` frame layout and slicing)

The frame slicing mirrors `send_chunk` in `app_data_transfer.c`:
`total_chunks = ceil(block_size / chunk_payload)`, the last chunk is
short, and the receiver only reads bytes 0..7 of the 12-byte chunk header
(bytes 8..11 differ between the two header definitions and are ignored),
so they are serialized as zero here. -/

/-- Number of chunks for a block: `(size + payload - 1) / payload`. -/
def chunk_count (block_size chunk_payload : Nat) : Nat :=
  (block_size + chunk_payload - 1) / chunk_payload

/-- One on-wire chunk frame for `(block_number, chunk_number)`. -/
def mk_chunk_frame (block_number chunk_number chunk_payload : Nat)
    (block : List Nat) : List Nat :=
  let total := chunk_count block.length chunk_payload
  let offset := chunk_number * chunk_payload
  let this_size := if block.length < offset + chunk_payload then block.length - offset
    else chunk_payload
  enc16 block_number ++ enc16 chunk_number ++ enc16 this_size ++ enc16 total ++
    [0, 0, 0, 0] ++ (block.drop offset).take this_size

/-- All chunk frames of a block, in order. -/
def mk_chunks (block_number chunk_payload : Nat) (block : List Nat) : List (List Nat) :=
  (List.range (chunk_count block.length chunk_payload)).map
    (fun i => mk_chunk_frame block_number i chunk_payload block)

/-! ## Sender state machine (`app_data_transfer.c`)

Compile-time configuration per `app_data_transfer.h`:
`BENCHMARK_MODE_ENABLED = 0` and `USE_COMPRESSION = 0`, so
`generate_block_data` takes the uncompressed branch.  The GATT send result
is an environment input per call; wall-clock time (`get_time_ms`) is a
`now` argument.  `uint16_t` stores wrap modulo 65536 and `uint32_t` stores
modulo 2^32. -/

/-- `transfer_state_t`. -/
inductive tx_state_kind where
  | idle | active | paused | waiting_ack | complete
deriving DecidableEq, Repr

/-- Result of `wiced_bt_gatt_server_send_notification`. -/
inductive gatt_status where
  | success | congested | error
deriving DecidableEq, Repr

def BLOCK_SIZE_MAX : Nat := 7168
def CHUNK_SIZE_DEFAULT_MAX : Nat := 244
def MIN_DELAY_MS : Nat := 15
def MAX_DELAY_MS : Nat := 50
def INITIAL_DELAY_MS : Nat := 15
def CONGESTION_THRESHOLD : Nat := 3
def SUCCESS_THRESHOLD : Nat := 50
def BACKOFF_INCREMENT : Nat := 5
def SPEEDUP_DECREMENT : Nat := 1
def CONGESTION_REPORT_INTERVAL_MS : Nat := 5000
def MAX_NOTIFICATIONS_IN_FLIGHT : Int := 2

/-- The sender-side global state of `app_data_transfer.c`. -/
structure tx_session where
  current_state : tx_state_kind
  connection_id : Nat
  notifications_enabled : Bool
  negotiated_mtu : Nat
  actual_chunk_size : Nat
  actual_chunks_per_block : Nat
  current_block : Nat
  current_chunk : Nat
  last_acked_block : Nat
  waiting_for_ack : Bool
  current_block_size : Nat
  stats_start_time_ms : Nat
  stats_end_time_ms : Nat
  stats_total_bytes : Nat
  stats_total_chunks : Nat
  stats_blocks_sent : Nat
  stats_disconnections : Nat
  stats_congestion_events : Nat
  stats_send_failures : Nat
  consecutive_send_failures : Nat
  consecutive_send_successes : Nat
  current_delay_ms : Nat
  last_congestion_report_time : Nat
  notification_credits : Int
  notifications_queued : Nat
  notifications_transmitted : Nat
deriving DecidableEq, Repr

/-- `generate_block_data` in the compiled configuration (no benchmark, no
compression): a simulated block is the 40-byte peripheral header plus
7128 raw sample bytes; `app_waveform_generate` succeeds for a non-null
header argument, so the size is always `40 + 7128 = 7168`. -/
def generate_block_data (_block_num : Nat) : Nat := 40 + 7128

/-- `app_data_transfer_init` / `reset_transfer_state` applied to the static
initializers (the MTU fields keep their static values `23` / `12` / `30`;
`reset_transfer_state` sets the delay to `INITIAL_DELAY_MS`). -/
def app_data_transfer_init : tx_session :=
  { current_state := .idle, connection_id := 0, notifications_enabled := false,
    negotiated_mtu := 23, actual_chunk_size := 12, actual_chunks_per_block := 30,
    current_block := 0, current_chunk := 0, last_acked_block := 0,
    waiting_for_ack := false, current_block_size := BLOCK_SIZE_MAX,
    stats_start_time_ms := 0, stats_end_time_ms := 0, stats_total_bytes := 0,
    stats_total_chunks := 0, stats_blocks_sent := 0, stats_disconnections := 0,
    stats_congestion_events := 0, stats_send_failures := 0,
    consecutive_send_failures := 0, consecutive_send_successes := 0,
    current_delay_ms := INITIAL_DELAY_MS, last_congestion_report_time := 0,
    notification_credits := MAX_NOTIFICATIONS_IN_FLIGHT,
    notifications_queued := 0, notifications_transmitted := 0 }

/-- `app_data_transfer_set_mtu`: `actual_chunk_size = mtu - 3 - 12` in
`uint16_t` arithmetic. -/
def app_data_transfer_set_mtu (s : tx_session) (mtu : Nat) : tx_session :=
  let m := mtu % 65536
  let acs := (((m : Int) - 3 - 12) % 65536).toNat
  { s with
    negotiated_mtu := m, actual_chunk_size := acs,
    actual_chunks_per_block := ((BLOCK_SIZE_MAX + acs - 1) / acs) % 65536 }

/-- `app_data_transfer_start`. -/
def app_data_transfer_start (s : tx_session) (conn_id : Nat) (now : Nat) :
    tx_session × Bool :=
  if ¬ s.notifications_enabled then (s, false)
  else
    ({ s with
      connection_id := conn_id, current_state := .active,
      current_block := 0, current_chunk := 0, last_acked_block := 0,
      waiting_for_ack := false,
      stats_start_time_ms := now, stats_end_time_ms := 0, stats_total_bytes := 0,
      stats_total_chunks := 0, stats_blocks_sent := 0, stats_disconnections := 0,
      stats_congestion_events := 0, stats_send_failures := 0,
      current_block_size := generate_block_data 0 }, true)

/-- `app_data_transfer_stop`. -/
def app_data_transfer_stop (s : tx_session) : tx_session :=
  { s with current_state := .idle }

/-- `app_data_transfer_pause`. -/
def app_data_transfer_pause (s : tx_session) : tx_session :=
  if s.current_state = .active ∨ s.current_state = .waiting_ack then
    { s with
      current_state := .paused,
      stats_disconnections := (s.stats_disconnections + 1) % 4294967296 }
  else s

/-- `app_data_transfer_resume`: rewind to the last acknowledged block. -/
def app_data_transfer_resume (s : tx_session) (conn_id : Nat) : tx_session × Bool :=
  if s.current_state ≠ .paused then (s, false)
  else if ¬ s.notifications_enabled then (s, false)
  else
    ({ s with
      connection_id := conn_id, current_block := s.last_acked_block,
      current_chunk := 0, waiting_for_ack := false,
      current_block_size := generate_block_data s.last_acked_block,
      current_state := .active }, true)

/-- `send_chunk`: credit check, then the send attempt whose GATT status is
the environment input; pacing counters and delay adaptation per the
source. -/
def send_chunk (s : tx_session) (status : gatt_status) (now : Nat) :
    tx_session × Bool :=
  if s.notification_credits ≤ 0 then
    let s1 := if CONGESTION_REPORT_INTERVAL_MS < now - s.last_congestion_report_time then
        { s with last_congestion_report_time := now }
      else s
    (s1, false)
  else
    match status with
    | .success =>
      let s1 := { s with
        notification_credits := s.notification_credits - 1,
        notifications_queued := (s.notifications_queued + 1) % 4294967296,
        consecutive_send_successes := (s.consecutive_send_successes + 1) % 65536,
        consecutive_send_failures := 0 }
      let s2 := if SUCCESS_THRESHOLD ≤ s1.consecutive_send_successes ∧
          MIN_DELAY_MS < s1.current_delay_ms then
          let d := s1.current_delay_ms - SPEEDUP_DECREMENT
          { s1 with
            current_delay_ms := if d < MIN_DELAY_MS then MIN_DELAY_MS else d,
            consecutive_send_successes := 0 }
        else s1
      (s2, true)
    | .congested =>
      let s1 := { s with
        consecutive_send_failures := (s.consecutive_send_failures + 1) % 65536,
        consecutive_send_successes := 0,
        stats_send_failures := (s.stats_send_failures + 1) % 4294967296 }
      let s2 := if CONGESTION_THRESHOLD ≤ s1.consecutive_send_failures then
          let d := s1.current_delay_ms + BACKOFF_INCREMENT
          let s2a := { s1 with current_delay_ms := if MAX_DELAY_MS < d then MAX_DELAY_MS else d }
          if CONGESTION_REPORT_INTERVAL_MS < now - s2a.last_congestion_report_time then
            { s2a with
              stats_congestion_events := (s2a.stats_congestion_events + 1) % 4294967296,
              last_congestion_report_time := now }
          else s2a
        else s1
      (s2, false)
    | .error =>
      ({ s with
        consecutive_send_failures := (s.consecutive_send_failures + 1) % 65536,
        consecutive_send_successes := 0,
        stats_send_failures := (s.stats_send_failures + 1) % 4294967296 }, false)

/-- `app_data_transfer_process_next_chunk` (benchmark branch compiled out). -/
def app_data_transfer_process_next_chunk (s : tx_session) (status : gatt_status)
    (now : Nat) : tx_session × Bool :=
  if s.current_state ≠ .active then (s, false)
  else if s.waiting_for_ack then (s, true)
  else if TOTAL_BLOCKS ≤ s.current_block then
    ({ s with current_state := .complete, stats_end_time_ms := now }, false)
  else
    match send_chunk s status now with
    | (s1, false) => (s1, true)
    | (s1, true) =>
      let s2 := { s1 with
        stats_total_chunks := (s1.stats_total_chunks + 1) % 4294967296,
        stats_total_bytes := (s1.stats_total_bytes + s1.actual_chunk_size) % 4294967296,
        current_chunk := (s1.current_chunk + 1) % 65536 }
      let chunks_in := (s2.current_block_size + s2.actual_chunk_size - 1) / s2.actual_chunk_size
      if chunks_in ≤ s2.current_chunk then
        let s3 := { s2 with
          current_chunk := 0,
          current_block := (s2.current_block + 1) % 65536,
          stats_blocks_sent := (s2.stats_blocks_sent + 1) % 65536 }
        let s4 := if s3.current_block % ACK_INTERVAL = 0 ∧ s3.current_block < TOTAL_BLOCKS then
            { s3 with current_state := .waiting_ack, waiting_for_ack := true }
          else s3
        let s5 := if s4.current_block < TOTAL_BLOCKS then
            { s4 with current_block_size := generate_block_data s4.current_block }
          else s4
        (s5, true)
      else (s2, true)

/-- The 7-byte control message `(command, block_number, timestamp)` as a
byte list (`control_msg_t`). -/
def control_msg_bytes (command block_number timestamp : Nat) : List Nat :=
  [command % 256] ++ enc16 block_number ++ enc32 timestamp

/-- `app_data_transfer_control_write_handler`: dispatch START / STOP / ACK
from the raw write payload. -/
def app_data_transfer_control_write_handler (s : tx_session) (conn_id : Nat)
    (data : List Nat) (now : Nat) : tx_session :=
  if data.length < 7 then s
  else
    let command := data.getD 0 0
    if command = 1 then (app_data_transfer_start s conn_id now).1
    else if command = 2 then app_data_transfer_stop s
    else if command = 3 then
      let block_number := le16 (data.getD 1 0) (data.getD 2 0)
      if s.last_acked_block ≤ block_number then
        let s1 := { s with last_acked_block := (block_number + 1) % 65536 }
        if s1.waiting_for_ack then
          { s1 with waiting_for_ack := false, current_state := .active }
        else s1
      else s
    else s

/-- `app_data_transfer_cccd_write_handler`. -/
def app_data_transfer_cccd_write_handler (s : tx_session) (conn_id : Nat)
    (enabled : Bool) : tx_session :=
  let s1 := { s with notifications_enabled := enabled, connection_id := conn_id }
  if ¬ enabled ∧ s1.current_state = .active then app_data_transfer_pause s1 else s1

/-- `app_data_transfer_notification_sent`. -/
def app_data_transfer_notification_sent (s : tx_session) : tx_session :=
  if s.notification_credits < MAX_NOTIFICATIONS_IN_FLIGHT then
    { s with
      notification_credits := s.notification_credits + 1,
      notifications_transmitted := (s.notifications_transmitted + 1) % 4294967296 }
  else s

/-- One operation on the sender session (environment inputs included). -/
inductive tx_op where
  | set_mtu (mtu : Nat)
  | start (conn_id : Nat) (now : Nat)
  | stop
  | pause
  | resume (conn_id : Nat)
  | next_chunk (status : gatt_status) (now : Nat)
  | control (conn_id : Nat) (data : List Nat) (now : Nat)
  | cccd (conn_id : Nat) (enabled : Bool)
  | notif_sent

/-- Apply one operation to the sender state. -/
def tx_apply (s : tx_session) : tx_op → tx_session
  | .set_mtu mtu => app_data_transfer_set_mtu s mtu
  | .start conn_id now => (app_data_transfer_start s conn_id now).1
  | .stop => app_data_transfer_stop s
  | .pause => app_data_transfer_pause s
  | .resume conn_id => (app_data_transfer_resume s conn_id).1
  | .next_chunk status now => (app_data_transfer_process_next_chunk s status now).1
  | .control conn_id data now => app_data_transfer_control_write_handler s conn_id data now
  | .cccd conn_id enabled => app_data_transfer_cccd_write_handler s conn_id enabled
  | .notif_sent => app_data_transfer_notification_sent s

/-- An operation respects the ACK window when any ACK control write carries
a block number strictly below the sender's current block (what a receiver
acknowledging delivered blocks produces). -/
def ack_in_window (s : tx_session) : tx_op → Prop
  | .control _ data _ =>
    7 ≤ data.length → data.getD 0 0 = 3 →
      le16 (data.getD 1 0) (data.getD 2 0) < s.current_block
  | _ => True

/-- Sender states reachable from reset by operation sequences whose ACKs
stay inside the send window. -/
inductive tx_reachable : tx_session → Prop where
  | init : tx_reachable app_data_transfer_init
  | step (s : tx_session) (op : tx_op) (h : tx_reachable s)
      (hok : ack_in_window s op) : tx_reachable (tx_apply s op)

/-! ## Concrete scenario inputs -/

/-- A fresh receiver session right after `start()`. -/
def rx0 : transfer_session := transfer_session_start transfer_session_create

/-- A 12-byte frame whose `chunk_size` field (100) exceeds the remaining
input length (0): block 0, chunk 0, total 1. -/
def c4_frame : List Nat := [0, 0, 0, 0, 100, 0, 1, 0, 0, 0, 0, 0]

/-- A single-chunk frame for block 5 with an empty payload: the assembled
block is empty, so both decode paths fail. -/
def c6_frame : List Nat := [5, 0, 0, 0, 0, 0, 1, 0, 0, 0, 0, 0]

/-- A frame for block 0, chunk 0 of 2, with a 1-byte payload: storing it
never completes the block. -/
def c7_frame : List Nat := [0, 0, 0, 0, 1, 0, 2, 0, 0, 0, 0, 0, 7]

/-! ## Named subterms of `transfer_session_process_chunk`

Aliases for the intermediate values of the accepted-frame path, used to
state branch equations. -/

/-- Parsed `block_number` field of a frame. -/
def pc_bn (data : List Nat) : Nat := le16 (data.getD 0 0) (data.getD 1 0)

/-- Parsed `chunk_number` field of a frame. -/
def pc_cn (data : List Nat) : Nat := le16 (data.getD 2 0) (data.getD 3 0)

/-- Parsed `chunk_size` field of a frame. -/
def pc_cs (data : List Nat) : Nat := le16 (data.getD 4 0) (data.getD 5 0)

/-- Parsed `total_chunks` field of a frame. -/
def pc_total (data : List Nat) : Nat := le16 (data.getD 6 0) (data.getD 7 0)

/-- Extracted payload of a frame. -/
def pc_payload (data : List Nat) : List Nat := (data.drop 12).take (pc_cs data)

/-- The per-block chunk map after storing the frame's chunk. -/
def pc_bc1 (s : transfer_session) (data : List Nat) : List (Nat × List (Nat × List Nat)) :=
  amodify
    (if acontains s.block_chunks (pc_bn data) then s.block_chunks
      else s.block_chunks ++ [(pc_bn data, [])])
    (pc_bn data) (fun inner => ainsert inner (pc_cn data) (pc_payload data))

/-- The expected-chunks map after processing the frame. -/
def pc_bec0 (s : transfer_session) (data : List Nat) : List (Nat × Nat) :=
  if acontains s.block_chunks (pc_bn data) then s.block_expected_chunks
  else s.block_expected_chunks ++ [(pc_bn data, pc_total data)]

/-- The stored chunk map of the frame's block after the store. -/
def pc_inner (s : transfer_session) (data : List Nat) : List (Nat × List Nat) :=
  (alookup (pc_bc1 s data) (pc_bn data)).getD []

/-- Session state after the store, before any completion handling. -/
def pc_s1 (s : transfer_session) (data : List Nat) : transfer_session :=
  { s with
    block_chunks := pc_bc1 s data, block_expected_chunks := pc_bec0 s data,
    total_chunks_received := (s.total_chunks_received + 1) % 4294967296,
    total_bytes_received := (s.total_bytes_received + pc_cs data) % 4294967296 }

/-- The reassembled block bytes when the block completes. -/
def pc_block (s : transfer_session) (data : List Nat) : List Nat :=
  assemble_block (pc_inner s data) (pc_total data)

/-- The size heuristic: the completed block is treated as compressed when
its assembled size is below the nominal bound. -/
def pc_is_compressed (s : transfer_session) (data : List Nat) : Bool :=
  decide ((pc_block s data).length < BLOCK_SIZE)

/-- The decode result of the completed block (size-heuristic dispatch). -/
def pc_decoded (inflate : List Nat → Option (List Nat)) (s : transfer_session)
    (data : List Nat) : Option (waveform_header × List Int) :=
  if pc_is_compressed s data then
    process_compressed_block inflate (pc_block s data)
  else process_uncompressed_block (pc_block s data)

/-- The waveform events fired for the completed block. -/
def pc_wevs (inflate : List Nat → Option (List Nat)) (s : transfer_session)
    (data : List Nat) : List rx_event :=
  match pc_decoded inflate s data with
  | some (header, samples) =>
    [rx_event.waveform header samples (pc_is_compressed s data)]
  | none => []

/-- The ack events fired for the completed block. -/
def pc_aevs (data : List Nat) : List rx_event :=
  if 0 < pc_bn data ∧ (pc_bn data + 1) % ACK_INTERVAL = 0 then [rx_event.ack (pc_bn data)]
  else []

/-- The completed set after marking the block received. -/
def pc_rb (s : transfer_session) (data : List Nat) : List (Nat × List Nat) :=
  ainsert s.received_blocks (pc_bn data) (pc_block s data)

/-- Session state after completion handling (before the transfer-complete
check). -/
def pc_s2 (s : transfer_session) (data : List Nat) : transfer_session :=
  { pc_s1 s data with
    received_blocks := pc_rb s data,
    block_chunks := aerase (pc_bc1 s data) (pc_bn data),
    block_expected_chunks := aerase (pc_bec0 s data) (pc_bn data) }

/-- Number of chunks of the sender's current block
(`(current_block_size + actual_chunk_size - 1) / actual_chunk_size`). -/
def chunks_in_block (s : tx_session) : Nat :=
  (s.current_block_size + s.actual_chunk_size - 1) / s.actual_chunk_size

/-- A sender about to emit the last chunk (29 of 30) of block 19 at the
default 244-byte chunk payload. -/
def tx_block19_last : tx_session :=
  { app_data_transfer_init with
    current_state := .active, current_block := 19, current_chunk := 29,
    actual_chunk_size := 244, current_block_size := 7168 }

/-- A sender waiting at the first ACK barrier (blocks 0-19 sent, no ACK
received yet). -/
def tx_waiting20 : tx_session :=
  { app_data_transfer_init with
    current_state := .waiting_ack, waiting_for_ack := true, current_block := 20 }

/-- The sender state after enabling notifications, starting, and then
receiving the out-of-window control write ACK(100). -/
def tx_bad : tx_session :=
  app_data_transfer_control_write_handler
    (app_data_transfer_start
      (app_data_transfer_cccd_write_handler app_data_transfer_init 1 true) 1 0).1
    1 (control_msg_bytes 3 100 0) 0

/-- A minimal single-chunk frame for block `b`: chunk 0 of 1 with an empty
payload (`chunk_size = 0`). -/
def frame_for (b : Nat) : List Nat :=
  [b % 256, b / 256, 0, 0, 0, 0, 1, 0, 0, 0, 0, 0]

/-- The frames `frame_for 0 .. frame_for (n-1)` in order. -/
def c5_frames (n : Nat) : List (List Nat) := (List.range n).map frame_for

/-- Closed form of the receiver state after feeding `frame_for 0`
through `frame_for (k-1)` to a freshly started session: `k` completed
(empty) blocks, no buffered chunks, `k` chunks counted, zero bytes. -/
def s_after (k : Nat) : transfer_session :=
  { is_active := decide (k < 1800),
    received_blocks := (List.range k).map (fun j => (j, [])),
    block_chunks := [], block_expected_chunks := [], last_acked_block := 0,
    total_bytes_received := 0, total_chunks_received := k }

/-- Invariant of the receiver's completed set: distinct keys, all below
`TOTAL_BLOCKS`. -/
def rx_inv (s : transfer_session) : Prop :=
  (s.received_blocks.map Prod.fst).Nodup ∧
  ∀ k ∈ s.received_blocks.map Prod.fst, k < TOTAL_BLOCKS

/-- Receiver session states reachable through the public API. -/
inductive rx_reachable : transfer_session → Prop where
  | created : rx_reachable transfer_session_create
  | started (s : transfer_session) (h : rx_reachable s) :
      rx_reachable (transfer_session_start s)
  | stopped (s : transfer_session) (h : rx_reachable s) :
      rx_reachable (transfer_session_stop s)
  | stepped (s : transfer_session) (inflate : List Nat → Option (List Nat))
      (data : List Nat) (h : rx_reachable s) :
      rx_reachable (transfer_session_process_chunk inflate s data).1

/-- Events fired when `frame_for k` completes block `k` on a session that
already holds blocks `0..k-1`. -/
def c5_evs (k : Nat) : List rx_event :=
  (if 0 < k ∧ (k + 1) % ACK_INTERVAL = 0 then [rx_event.ack k] else []) ++
    (if k + 1 = 1800 then [rx_event.progress, rx_event.completion]
      else [rx_event.progress])

/-! ## Canonical single-block feed (claim C1) -/

/-- The per-chunk payload size of `send_chunk` (the last chunk is short). -/
def chunk_size_at (block_len payload i : Nat) : Nat :=
  if block_len < i * payload + payload then block_len - i * payload else payload

/-- The payload slice carried by chunk `i` of a block. -/
def chunk_slice (block : List Nat) (payload i : Nat) : List Nat :=
  (block.drop (i * payload)).take (chunk_size_at block.length payload i)

/-- Receiver state while one block is in flight: chunks `0..k-1` of that
block stored, nothing completed yet. -/
def c1_state (bn total : Nat) (block : List Nat) (payload k bytes : Nat) :
    transfer_session :=
  { is_active := true,
    received_blocks := [],
    block_chunks :=
      if k = 0 then []
      else [(bn, (List.range k).map (fun i => (i, chunk_slice block payload i)))],
    block_expected_chunks := if k = 0 then [] else [(bn, total)],
    last_acked_block := 0,
    total_bytes_received := bytes,
    total_chunks_received := k }

/-- The waveform events the receiver fires for a fully assembled block:
the size heuristic selects the decode path, a successful decode fires one
on-waveform callback. -/
def c1_wevs (inflate : List Nat → Option (List Nat)) (block : List Nat) :
    List rx_event :=
  match (if block.length < BLOCK_SIZE then process_compressed_block inflate block
         else process_uncompressed_block block) with
  | some (header, samples) =>
      [rx_event.waveform header samples (decide (block.length < BLOCK_SIZE))]
  | none => []

/-! ## Arithmetic bridges for the bitwise byte assembly -/

theorem testBit_add_mul_two_pow_low {a b k i : Nat} (hi : i < k) :
    (a + b * 2 ^ k).testBit i = a.testBit i := by
  rw [Nat.testBit_to_div_mod, Nat.testBit_to_div_mod]
  have hsplit : 2 ^ k = 2 ^ (k - i - 1) * 2 * 2 ^ i := by
    rw [mul_assoc, ← pow_succ']
    rw [← pow_add]
    congr 1
    omega
  have hdiv : (a + b * 2 ^ k) / 2 ^ i = a / 2 ^ i + b * (2 ^ (k - i - 1) * 2) := by
    rw [hsplit, ← mul_assoc]
    exact Nat.add_mul_div_right a _ (Nat.pos_pow_of_pos i (by omega))
  rw [hdiv]
  have hre : a / 2 ^ i + b * (2 ^ (k - i - 1) * 2) =
      a / 2 ^ i + (b * 2 ^ (k - i - 1)) * 2 := by ring
  rw [hre]
  simp only [decide_eq_decide]
  omega

theorem testBit_add_mul_two_pow_high {a b k i : Nat} (ha : a < 2 ^ k) (hi : k ≤ i) :
    (a + b * 2 ^ k).testBit i = b.testBit (i - k) := by
  rw [Nat.testBit_to_div_mod, Nat.testBit_to_div_mod]
  have hdiv : (a + b * 2 ^ k) / 2 ^ i = b / 2 ^ (i - k) := by
    have hsplit : 2 ^ i = 2 ^ k * 2 ^ (i - k) := by
      rw [← pow_add]
      congr 1
      omega
    rw [hsplit, ← Nat.div_div_eq_div_mul,
      Nat.add_mul_div_right a b (Nat.pos_pow_of_pos k (by omega)),
      Nat.div_eq_of_lt ha, Nat.zero_add]
  rw [hdiv]

theorem lor_shiftLeft_eq_add {a : Nat} (b k : Nat) (h : a < 2 ^ k) :
    a ||| (b <<< k) = a + b * 2 ^ k := by
  apply Nat.eq_of_testBit_eq
  intro i
  rw [Nat.testBit_lor, Nat.testBit_shiftLeft]
  by_cases hik : i < k
  · have hd : (decide (i ≥ k)) = false := by
      simp only [ge_iff_le, decide_eq_false_iff_not]
      omega
    rw [hd, Bool.false_and, Bool.or_false, testBit_add_mul_two_pow_low hik]
  · have hd : (decide (i ≥ k)) = true := by
      simp only [ge_iff_le, decide_eq_true_eq]
      omega
    have ha : a.testBit i = false :=
      Nat.testBit_eq_false_of_lt
        (lt_of_lt_of_le h (Nat.pow_le_pow_right (by omega) (by omega)))
    rw [hd, Bool.true_and, ha, Bool.false_or,
      testBit_add_mul_two_pow_high h (by omega)]

theorem le16_eq {b0 : Nat} (b1 : Nat) (h : b0 < 256) :
    le16 b0 b1 = b0 + 256 * b1 := by
  unfold le16
  rw [lor_shiftLeft_eq_add b1 8 (by norm_num [h] )]
  ring

theorem le16_lt {b0 b1 : Nat} (h0 : b0 < 256) (h1 : b1 < 256) :
    le16 b0 b1 < 65536 := by
  rw [le16_eq b1 h0]
  omega

theorem le24_eq {b0 b1 : Nat} (b2 : Nat) (h0 : b0 < 256) (h1 : b1 < 256) :
    le24 b0 b1 b2 = b0 + 256 * b1 + 65536 * b2 := by
  unfold le24
  rw [show b0 ||| b1 <<< 8 = le16 b0 b1 from rfl, le16_eq b1 h0]
  rw [lor_shiftLeft_eq_add b2 16 (by norm_num; omega)]
  ring

theorem le32_eq {b0 b1 b2 : Nat} (b3 : Nat) (h0 : b0 < 256) (h1 : b1 < 256)
    (h2 : b2 < 256) :
    le32 b0 b1 b2 b3 = b0 + 256 * b1 + 65536 * b2 + 16777216 * b3 := by
  unfold le32
  rw [show b0 ||| b1 <<< 8 ||| b2 <<< 16 = le24 b0 b1 b2 from rfl, le24_eq b2 h0 h1]
  rw [lor_shiftLeft_eq_add b3 24 (by norm_num; omega)]
  ring

theorem le16_enc16 {v : Nat} (h : v < 65536) :
    le16 (v % 256) (v / 256 % 256) = v := by
  rw [le16_eq _ (Nat.mod_lt _ (by omega))]
  omega

theorem le32_enc32 {v : Nat} (h : v < 4294967296) :
    le32 (v % 256) (v / 256 % 256) (v / 65536 % 256) (v / 16777216 % 256) = v := by
  rw [le32_eq _ (Nat.mod_lt _ (by omega)) (Nat.mod_lt _ (by omega))
    (Nat.mod_lt _ (by omega))]
  omega

theorem toInt16_encI16 {v : Int} (h1 : -32768 ≤ v) (h2 : v < 32768) :
    toInt16 (le16 ((v % 65536).toNat % 256) ((v % 65536).toNat / 256 % 256)) = v := by
  have hnn : 0 ≤ v % 65536 := Int.emod_nonneg v (by norm_num)
  have hub : v % 65536 < 65536 := Int.emod_lt_of_pos v (by norm_num)
  have htn : ((v % 65536).toNat : Int) = v % 65536 := Int.toNat_of_nonneg hnn
  have hlt : (v % 65536).toNat < 65536 := by omega
  rw [le16_enc16 hlt]
  unfold toInt16
  split <;> omega

theorem and_two_pow_eq_zero_iff (v k : Nat) :
    (v &&& 2 ^ k = 0) ↔ v / 2 ^ k % 2 = 0 := by
  rw [Nat.and_two_pow, Nat.testBit_to_div_mod]
  have hpow : 0 < 2 ^ k := Nat.pos_pow_of_pos k (by omega)
  generalize v / 2 ^ k = q
  rcases Nat.mod_two_eq_zero_or_one q with h | h
  · have hd : decide (q % 2 = 1) = false := by simp [h]
    rw [hd]
    simp only [Bool.toNat_false, Nat.zero_mul]
    simp [h]
  · have hd : decide (q % 2 = 1) = true := by simp [h]
    rw [hd]
    simp only [Bool.toNat_true, Nat.one_mul]
    constructor <;> intro hz <;> omega

theorem and_255_eq_mod (v : Nat) : v &&& 255 = v % 256 := by
  have := Nat.and_pow_two_sub_one_eq_mod v 8
  norm_num at this
  exact this

theorem shiftRight_eq_div (v k : Nat) : v >>> k = v / 2 ^ k :=
  Nat.shiftRight_eq_div_pow v k

theorem sample_le_bytes_eq (s : Int) :
    sample_le_bytes s =
      [(s % 4294967296).toNat % 256, (s % 4294967296).toNat / 256 % 256,
        (s % 4294967296).toNat / 65536 % 256] := by
  show [(s % 4294967296).toNat &&& 255, ((s % 4294967296).toNat >>> 8) &&& 255,
    ((s % 4294967296).toNat >>> 16) &&& 255] = _
  rw [and_255_eq_mod, and_255_eq_mod, and_255_eq_mod, shiftRight_eq_div,
    shiftRight_eq_div]
  norm_num

theorem sample_le_bytes_length (s : Int) : (sample_le_bytes s).length = 3 := rfl

theorem sign_extend24_le24_pack {s : Int} (h1 : -8388608 ≤ s) (h2 : s < 8388608) :
    sign_extend24 (le24 ((s % 4294967296).toNat % 256)
      ((s % 4294967296).toNat / 256 % 256)
      ((s % 4294967296).toNat / 65536 % 256)) = s := by
  have hnn : 0 ≤ s % 4294967296 := Int.emod_nonneg s (by norm_num)
  have hub : s % 4294967296 < 4294967296 := Int.emod_lt_of_pos s (by norm_num)
  have htn : ((s % 4294967296).toNat : Int) = s % 4294967296 := Int.toNat_of_nonneg hnn
  set u := (s % 4294967296).toNat with hu
  have hul : u < 4294967296 := by omega
  have hle : le24 (u % 256) (u / 256 % 256) (u / 65536 % 256) = u % 16777216 := by
    rw [le24_eq _ (Nat.mod_lt _ (by omega)) (Nat.mod_lt _ (by omega))]
    omega
  rw [hle]
  unfold sign_extend24
  simp only [show (0x800000 : Nat) = 2 ^ 23 from by norm_num,
    and_two_pow_eq_zero_iff]
  split <;> omega

/-! ## Association-list lemmas -/

theorem alookup_cons {α : Type} (k1 : Nat) (v1 : α) (rest : List (Nat × α)) (key : Nat) :
    alookup ((k1, v1) :: rest) key = if k1 = key then some v1 else alookup rest key := rfl

theorem alookup_aerase_self {α : Type} (m : List (Nat × α)) (k : Nat) :
    alookup (aerase m k) k = none := by
  induction m with
  | nil => rfl
  | cons p rest ih =>
    obtain ⟨k1, v1⟩ := p
    unfold aerase at ih ⊢
    rw [List.filter_cons]
    dsimp only
    by_cases hk : k1 = k
    · rw [decide_eq_false (by simp [hk]), if_neg Bool.false_ne_true]
      exact ih
    · rw [decide_eq_true (by simp [hk]), if_pos rfl, alookup_cons, if_neg hk]
      exact ih

theorem alookup_replace_self {α : Type} (m : List (Nat × α)) (k : Nat) (v : α) :
    alookup (m.map (fun p => if p.1 = k then (k, v) else p)) k =
      (alookup m k).map (fun _ => v) := by
  induction m with
  | nil => rfl
  | cons p rest ih =>
    obtain ⟨k1, v1⟩ := p
    rw [List.map_cons]
    dsimp only
    by_cases hk : k1 = k
    · rw [if_pos hk, alookup_cons, if_pos rfl, alookup_cons, if_pos hk]
      rfl
    · rw [if_neg hk, alookup_cons, if_neg hk, alookup_cons, if_neg hk]
      exact ih

theorem alookup_ainsert_self {α : Type} (m : List (Nat × α)) (k : Nat) (v : α) :
    alookup (ainsert m k v) k = some v := by
  unfold ainsert
  by_cases hc : acontains m k = true
  · rw [if_pos hc, alookup_replace_self]
    unfold acontains at hc
    cases hl : alookup m k with
    | none => rw [hl] at hc; simp at hc
    | some w => rfl
  · rw [if_neg hc]
    unfold acontains at hc
    have hnone : alookup m k = none := by
      cases hl : alookup m k with
      | none => rfl
      | some w => rw [hl] at hc; simp at hc
    clear hc
    induction m with
    | nil => rw [List.nil_append, alookup_cons, if_pos rfl]
    | cons p rest ih =>
      obtain ⟨k1, v1⟩ := p
      rw [alookup_cons] at hnone
      by_cases hk : k1 = k
      · rw [if_pos hk] at hnone
        exact absurd hnone (by simp)
      · rw [if_neg hk] at hnone
        rw [List.cons_append, alookup_cons, if_neg hk]
        exact ih hnone

theorem acontains_ainsert_self {α : Type} (m : List (Nat × α)) (k : Nat) (v : α) :
    acontains (ainsert m k v) k = true := by
  unfold acontains
  rw [alookup_ainsert_self]
  rfl

theorem alookup_amodify_self {α : Type} (m : List (Nat × α)) (k : Nat) (f : α → α) :
    alookup (amodify m k f) k = (alookup m k).map f := by
  induction m with
  | nil => rfl
  | cons p rest ih =>
    obtain ⟨k1, v1⟩ := p
    unfold amodify at ih ⊢
    rw [List.map_cons]
    dsimp only
    by_cases hk : k1 = k
    · rw [if_pos hk, alookup_cons, if_pos hk, alookup_cons, if_pos hk]
      rfl
    · rw [if_neg hk, alookup_cons, if_neg hk, alookup_cons, if_neg hk]
      exact ih

theorem alookup_append_right_of_none {α : Type} (m : List (Nat × α)) (k : Nat)
    (v : α) (h : alookup m k = none) : alookup (m ++ [(k, v)]) k = some v := by
  induction m with
  | nil => rw [List.nil_append, alookup_cons, if_pos rfl]
  | cons p rest ih =>
    obtain ⟨k1, v1⟩ := p
    rw [alookup_cons] at h
    by_cases hk : k1 = k
    · rw [if_pos hk] at h
      exact absurd h (by simp)
    · rw [if_neg hk] at h
      rw [List.cons_append, alookup_cons, if_neg hk]
      exact ih h

theorem alookup_eq_none_of_not_contains {α : Type} (m : List (Nat × α)) (k : Nat)
    (h : acontains m k = false) : alookup m k = none := by
  unfold acontains at h
  cases hl : alookup m k with
  | none => rfl
  | some v => rw [hl] at h; simp at h

theorem not_mem_keys_of_lookup_none {α : Type} {m : List (Nat × α)} {k : Nat}
    (h : alookup m k = none) : ∀ p ∈ m, p.1 ≠ k := by
  induction m with
  | nil => intro p hp; simp at hp
  | cons q rest ih =>
    obtain ⟨k1, v1⟩ := q
    rw [alookup_cons] at h
    by_cases hk : k1 = k
    · rw [if_pos hk] at h
      exact absurd h (by simp)
    · rw [if_neg hk] at h
      intro p hp
      rcases List.mem_cons.mp hp with hq | hr
      · simp only [hq]
        exact hk
      · exact ih h p hr

theorem ainsert_pos {α : Type} (m : List (Nat × α)) (k : Nat) (v : α)
    (h : acontains m k = true) :
    ainsert m k v = m.map (fun p => if p.1 = k then (k, v) else p) := by
  unfold ainsert
  rw [if_pos h]

theorem ainsert_neg {α : Type} (m : List (Nat × α)) (k : Nat) (v : α)
    (h : acontains m k = false) : ainsert m k v = m ++ [(k, v)] := by
  unfold ainsert
  rw [if_neg (by simp [h])]

theorem ainsert_ainsert_same {α : Type} (m : List (Nat × α)) (k : Nat) (v : α) :
    ainsert (ainsert m k v) k v = ainsert m k v := by
  have hc : acontains (ainsert m k v) k = true := acontains_ainsert_self m k v
  by_cases hc0 : acontains m k = true
  · rw [ainsert_pos _ _ _ hc, ainsert_pos _ _ _ hc0, List.map_map]
    apply List.map_congr_left
    intro p _
    obtain ⟨k1, v1⟩ := p
    by_cases hk : k1 = k <;> simp [Function.comp, hk]
  · rw [ainsert_pos _ _ _ hc, ainsert_neg _ _ _ (by simpa using hc0), List.map_append]
    have hnone : alookup m k = none :=
      alookup_eq_none_of_not_contains m k (by simpa using hc0)
    congr 1
    · conv_rhs => rw [← List.map_id m]
      apply List.map_congr_left
      intro p hp
      obtain ⟨k1, v1⟩ := p
      have hk : k1 ≠ k := not_mem_keys_of_lookup_none hnone (k1, v1) hp
      simp [hk]
    · simp

theorem amodify_amodify {α : Type} (m : List (Nat × α)) (k : Nat) (f g : α → α) :
    amodify (amodify m k f) k g = amodify m k (fun x => g (f x)) := by
  unfold amodify
  rw [List.map_map]
  apply List.map_congr_left
  intro p _
  obtain ⟨k1, v1⟩ := p
  by_cases hk : k1 = k <;> simp [Function.comp, hk]

/-! ## Branch equations for `transfer_session_process_chunk` -/

theorem process_chunk_short {data : List Nat}
    (inflate : List Nat → Option (List Nat)) (s : transfer_session)
    (h : data.length < 12) :
    transfer_session_process_chunk inflate s data = (s, [], false) := by
  unfold transfer_session_process_chunk
  rw [if_pos h]

theorem process_chunk_bad_block {data : List Nat}
    (inflate : List Nat → Option (List Nat)) (s : transfer_session)
    (h12 : ¬ data.length < 12) (hbn : TOTAL_BLOCKS ≤ pc_bn data) :
    transfer_session_process_chunk inflate s data = (s, [], false) := by
  unfold transfer_session_process_chunk
  rw [if_neg h12]
  unfold pc_bn at hbn
  rw [if_pos hbn]

theorem process_chunk_store {data : List Nat}
    (inflate : List Nat → Option (List Nat)) (s : transfer_session)
    (h12 : ¬ data.length < 12) (hbn : ¬ TOTAL_BLOCKS ≤ pc_bn data)
    (hnc : (pc_inner s data).length ≠ pc_total data) :
    transfer_session_process_chunk inflate s data = (pc_s1 s data, [], true) := by
  simp only [pc_inner, pc_bc1, pc_bn, pc_cn, pc_payload, pc_cs, pc_total] at hnc
  unfold pc_bn at hbn
  unfold transfer_session_process_chunk
  rw [if_neg h12, if_neg hbn]
  dsimp only
  rw [if_neg hnc]
  simp only [pc_s1, pc_bc1, pc_bec0, pc_bn, pc_cn, pc_payload, pc_cs, pc_total]

theorem process_chunk_complete {data : List Nat}
    (inflate : List Nat → Option (List Nat)) (s : transfer_session)
    (h12 : ¬ data.length < 12) (hbn : ¬ TOTAL_BLOCKS ≤ pc_bn data)
    (hc : (pc_inner s data).length = pc_total data) :
    transfer_session_process_chunk inflate s data =
      if (pc_rb s data).length = TOTAL_BLOCKS then
        ({ pc_s2 s data with is_active := false },
          pc_wevs inflate s data ++ pc_aevs data ++ [rx_event.progress, rx_event.completion],
          true)
      else
        (pc_s2 s data, pc_wevs inflate s data ++ pc_aevs data ++ [rx_event.progress], true) := by
  simp only [pc_inner, pc_bc1, pc_bn, pc_cn, pc_payload, pc_cs, pc_total] at hc
  have hbn' := hbn
  unfold pc_bn at hbn'
  unfold transfer_session_process_chunk
  rw [if_neg h12, if_neg hbn']
  dsimp only
  rw [if_pos hc]
  simp only [pc_rb, pc_s2, pc_s1, pc_wevs, pc_aevs, pc_decoded, pc_is_compressed,
    pc_block, pc_inner, pc_bc1, pc_bec0, pc_bn, pc_cn, pc_payload, pc_cs, pc_total]

theorem acontains_amodify_self {α : Type} (m : List (Nat × α)) (k : Nat) (f : α → α) :
    acontains (amodify m k f) k = acontains m k := by
  unfold acontains
  rw [alookup_amodify_self]
  cases alookup m k <;> rfl

theorem acontains_pc_bc1 (s : transfer_session) (data : List Nat) :
    acontains (pc_bc1 s data) (pc_bn data) = true := by
  unfold pc_bc1
  rw [acontains_amodify_self]
  by_cases hc : acontains s.block_chunks (pc_bn data) = true
  · rw [if_pos hc]
    exact hc
  · rw [if_neg hc]
    unfold acontains
    rw [alookup_append_right_of_none _ _ _
      (alookup_eq_none_of_not_contains _ _ (by simpa using hc))]
    rfl

theorem pc_bc1_idem (s : transfer_session) (data : List Nat) :
    pc_bc1 (pc_s1 s data) data = pc_bc1 s data := by
  conv_lhs => rw [pc_bc1]
  have hbc : (pc_s1 s data).block_chunks = pc_bc1 s data := rfl
  rw [hbc, if_pos (acontains_pc_bc1 s data)]
  conv_lhs => rw [pc_bc1]
  rw [amodify_amodify]
  have hf : (fun x => ainsert (ainsert x (pc_cn data) (pc_payload data))
      (pc_cn data) (pc_payload data)) =
      (fun inner => ainsert inner (pc_cn data) (pc_payload data)) := by
    funext x
    exact ainsert_ainsert_same x (pc_cn data) (pc_payload data)
  rw [hf]
  rfl

theorem pc_bec0_idem (s : transfer_session) (data : List Nat) :
    pc_bec0 (pc_s1 s data) data = pc_bec0 s data := by
  unfold pc_bec0
  have hbc : (pc_s1 s data).block_chunks = pc_bc1 s data := rfl
  rw [hbc, if_pos (acontains_pc_bc1 s data)]
  rfl

theorem pc_inner_idem (s : transfer_session) (data : List Nat) :
    pc_inner (pc_s1 s data) data = pc_inner s data := by
  unfold pc_inner
  rw [pc_bc1_idem]

/-! ## Claim C10 -/

/-- C10: the receiver's `process_chunk` never consults the session's
`is_active` flag.  Running it on the stopped session yields exactly the
run of the original session with the active flag cleared on the result:
chunks are still stored, blocks still assemble and decode, and the
waveform/ack/progress/completion callbacks still fire with identical
arguments; `stop()` does not make `process_chunk` a no-op. -/
theorem spec_c10 (inflate : List Nat → Option (List Nat)) (s : transfer_session)
    (data : List Nat) :
    transfer_session_process_chunk inflate (transfer_session_stop s) data =
      (transfer_session_stop (transfer_session_process_chunk inflate s data).1,
        (transfer_session_process_chunk inflate s data).2) := by
  cases s
  unfold transfer_session_process_chunk transfer_session_stop
  dsimp only
  repeat' split
  all_goals rfl

/-! ## Claim C9 -/

/-- C9 (amended): `stop()` marks the receiver session inactive but does not
discard the buffered per-block chunk entries — they are retained
unchanged, and are only cleared by the next `start()`. -/
theorem spec_c9 (s : transfer_session) :
    (transfer_session_stop s).is_active = false ∧
    (transfer_session_stop s).block_chunks = s.block_chunks ∧
    (transfer_session_stop s).block_expected_chunks = s.block_expected_chunks ∧
    (transfer_session_start s).block_chunks = [] :=
  ⟨rfl, rfl, rfl, rfl⟩

/-- C9 counterexample: a session holding one buffered chunk of a
two-chunk block still holds it after `stop()` — the claim that the
per-block map is empty after `stop()` fails. -/
theorem spec_c9_cex :
    (transfer_session_stop
      (transfer_session_process_chunk inflate_none rx0 c7_frame).1).is_active = false ∧
    (transfer_session_stop
      (transfer_session_process_chunk inflate_none rx0 c7_frame).1).block_chunks =
      [(0, [(0, [7])])] ∧
    [(0, [(0, [7])])] ≠ ([] : List (Nat × List (Nat × List Nat))) := by
  refine ⟨rfl, by decide, by decide⟩

/-! ## Claim C4 -/

/-- C4: the source constructs
`std::vector(data + 12, data + 12 + chunk_size)` without clamping, so a
well-formed 12-byte frame whose `chunk_size` field is 100 is accepted
(bool result `true`) yet reads 100 bytes beyond the input buffer:
`process_chunk_reads_in_bounds` is `false` on it.  The claimed clamping
does not exist in the code. -/
theorem spec_c4 :
    12 ≤ c4_frame.length ∧
    le16 (c4_frame.getD 0 0) (c4_frame.getD 1 0) < TOTAL_BLOCKS ∧
    (transfer_session_process_chunk inflate_none transfer_session_create c4_frame).2.2
      = true ∧
    process_chunk_reads_in_bounds c4_frame = false := by
  refine ⟨by decide, by decide, by decide, by decide⟩

/-! ## Claim C6 -/

/-- C6 (amended): when an assembled block fails to decode, the on-waveform
callback is not invoked (no waveform event), the buffered chunk entry and
the expected-chunks entry for the block are removed — but, contrary to the
original claim, the block is nevertheless added to the completed set
(`received_blocks[block_number] = block_data` runs unconditionally). -/
theorem spec_c6 (inflate : List Nat → Option (List Nat)) (s : transfer_session)
    (data : List Nat)
    (hacc : (transfer_session_process_chunk inflate s data).2.2 = true)
    (hdone : rx_event.progress ∈ (transfer_session_process_chunk inflate s data).2.1)
    (hfail : waveform_events (transfer_session_process_chunk inflate s data).2.1 = []) :
    acontains (transfer_session_process_chunk inflate s data).1.received_blocks
      (pc_bn data) = true ∧
    alookup (transfer_session_process_chunk inflate s data).1.block_chunks
      (pc_bn data) = none ∧
    alookup (transfer_session_process_chunk inflate s data).1.block_expected_chunks
      (pc_bn data) = none := by
  by_cases h12 : data.length < 12
  · rw [process_chunk_short inflate s h12] at hacc
    simp at hacc
  by_cases hbn : TOTAL_BLOCKS ≤ pc_bn data
  · rw [process_chunk_bad_block inflate s h12 hbn] at hacc
    simp at hacc
  by_cases hcomp : (pc_inner s data).length = pc_total data
  · rw [process_chunk_complete inflate s h12 hbn hcomp]
    split
    · exact ⟨acontains_ainsert_self _ _ _, alookup_aerase_self _ _,
        alookup_aerase_self _ _⟩
    · exact ⟨acontains_ainsert_self _ _ _, alookup_aerase_self _ _,
        alookup_aerase_self _ _⟩
  · rw [process_chunk_store inflate s h12 hbn hcomp] at hdone
    simp at hdone

/-- C6 counterexample: a single-chunk block (block 5, empty payload) whose
decode fails — no waveform event fires — is nevertheless present in the
completed set afterwards, refuting the claim that failed blocks are not
added to it. -/
theorem spec_c6_cex :
    waveform_events (transfer_session_process_chunk inflate_none rx0 c6_frame).2.1 = [] ∧
    rx_event.progress ∈ (transfer_session_process_chunk inflate_none rx0 c6_frame).2.1 ∧
    alookup (transfer_session_process_chunk inflate_none rx0 c6_frame).1.received_blocks
      5 = some [] := by
  decide

/-- C6 witness: the amended theorem applied to the concrete failing block. -/
theorem spec_c6_witness :
    (transfer_session_process_chunk inflate_none rx0 c6_frame).2.2 = true ∧
    rx_event.progress ∈ (transfer_session_process_chunk inflate_none rx0 c6_frame).2.1 ∧
    waveform_events (transfer_session_process_chunk inflate_none rx0 c6_frame).2.1 = [] ∧
    (acontains (transfer_session_process_chunk inflate_none rx0 c6_frame).1.received_blocks
      (pc_bn c6_frame) = true ∧
    alookup (transfer_session_process_chunk inflate_none rx0 c6_frame).1.block_chunks
      (pc_bn c6_frame) = none ∧
    alookup (transfer_session_process_chunk inflate_none rx0 c6_frame).1.block_expected_chunks
      (pc_bn c6_frame) = none) :=
  ⟨by decide, by decide, by decide,
    spec_c6 inflate_none rx0 c6_frame (by decide) (by decide) (by decide)⟩

/-! ## Claim C7 -/

/-- C7 (amended): feeding the identical chunk twice, when it does not
complete its block, leaves the completed set, the buffered chunk map and
the emitted events unchanged after the second feed — but the
`total_chunks_received` / `total_bytes_received` counters increment on
every feed (`uint32_t` arithmetic), not only on the first store. -/
theorem spec_c7 (inflate : List Nat → Option (List Nat)) (s : transfer_session)
    (data : List Nat) (r1 : transfer_session × List rx_event × Bool)
    (h12 : ¬ data.length < 12) (hbn : ¬ TOTAL_BLOCKS ≤ pc_bn data)
    (hnc : (pc_inner s data).length ≠ pc_total data)
    (hr1 : transfer_session_process_chunk inflate s data = r1) :
    r1.2.1 = [] ∧
    transfer_session_process_chunk inflate r1.1 data =
      ({ r1.1 with
        total_chunks_received := (r1.1.total_chunks_received + 1) % 4294967296,
        total_bytes_received := (r1.1.total_bytes_received + pc_cs data) % 4294967296 },
        [], true) := by
  subst hr1
  rw [process_chunk_store inflate s h12 hbn hnc]
  refine ⟨rfl, ?_⟩
  have hnc2 : (pc_inner (pc_s1 s data) data).length ≠ pc_total data := by
    rw [pc_inner_idem]
    exact hnc
  rw [process_chunk_store inflate (pc_s1 s data) h12 hbn hnc2]
  have hs1 : pc_s1 (pc_s1 s data) data =
      { pc_s1 s data with
        total_chunks_received := ((pc_s1 s data).total_chunks_received + 1) % 4294967296,
        total_bytes_received :=
          ((pc_s1 s data).total_bytes_received + pc_cs data) % 4294967296 } := by
    conv_lhs => rw [pc_s1]
    rw [pc_bc1_idem, pc_bec0_idem]
    rfl
  rw [hs1]

/-- C7 counterexample: feeding the identical 1-byte chunk twice from a
fresh session doubles both counters (2 chunks, 2 bytes), refuting the
claim that they equal their values after the first feed. -/
theorem spec_c7_cex :
    (transfer_session_process_chunk inflate_none rx0 c7_frame).1.total_chunks_received
      = 1 ∧
    (transfer_session_process_chunk inflate_none
      (transfer_session_process_chunk inflate_none rx0 c7_frame).1
        c7_frame).1.total_chunks_received = 2 ∧
    (transfer_session_process_chunk inflate_none rx0 c7_frame).1.total_bytes_received
      = 1 ∧
    (transfer_session_process_chunk inflate_none
      (transfer_session_process_chunk inflate_none rx0 c7_frame).1
        c7_frame).1.total_bytes_received = 2 := by
  decide

/-- C7 witness: the amended theorem applied to the concrete duplicate
chunk. -/
theorem spec_c7_witness :
    (transfer_session_process_chunk inflate_none rx0 c7_frame).2.1 = [] ∧
    transfer_session_process_chunk inflate_none
      (transfer_session_process_chunk inflate_none rx0 c7_frame).1 c7_frame =
      ({ (transfer_session_process_chunk inflate_none rx0 c7_frame).1 with
        total_chunks_received :=
          ((transfer_session_process_chunk inflate_none rx0 c7_frame).1.total_chunks_received
            + 1) % 4294967296,
        total_bytes_received :=
          ((transfer_session_process_chunk inflate_none rx0 c7_frame).1.total_bytes_received
            + pc_cs c7_frame) % 4294967296 },
        [], true) :=
  spec_c7 inflate_none rx0 c7_frame _ (by decide) (by decide) (by decide) rfl

/-! ## Sender-side lemmas -/

theorem send_chunk_success (s : tx_session) (now : Nat)
    (hcred : 0 < s.notification_credits) :
    ∃ p : tx_session, send_chunk s .success now = (p, true) ∧
      p.current_state = s.current_state ∧ p.waiting_for_ack = s.waiting_for_ack ∧
      p.current_block = s.current_block ∧ p.current_chunk = s.current_chunk ∧
      p.last_acked_block = s.last_acked_block ∧
      p.current_block_size = s.current_block_size ∧
      p.actual_chunk_size = s.actual_chunk_size ∧
      p.notifications_enabled = s.notifications_enabled := by
  unfold send_chunk
  rw [if_neg (by omega)]
  dsimp only
  refine ⟨_, rfl, ?_, ?_, ?_, ?_, ?_, ?_, ?_, ?_⟩ <;> (split <;> rfl)

theorem process_next_chunk_not_active (s : tx_session) (st : gatt_status) (now : Nat)
    (h : s.current_state ≠ .active) :
    app_data_transfer_process_next_chunk s st now = (s, false) := by
  unfold app_data_transfer_process_next_chunk
  rw [if_pos h]

theorem control_msg_bytes_ack_fields (b t : Nat) :
    (control_msg_bytes 3 b t).length = 7 ∧
    (control_msg_bytes 3 b t).getD 0 0 = 3 ∧
    (control_msg_bytes 3 b t).getD 1 0 = b % 256 ∧
    (control_msg_bytes 3 b t).getD 2 0 = b / 256 % 256 :=
  ⟨rfl, rfl, rfl, rfl⟩

theorem handler_ack_ge (s : tx_session) (conn b t now : Nat)
    (hb : s.last_acked_block ≤ b) (hb2 : b < 65536) :
    app_data_transfer_control_write_handler s conn (control_msg_bytes 3 b t) now =
      if s.waiting_for_ack then
        { s with
          last_acked_block := (b + 1) % 65536, waiting_for_ack := false,
          current_state := .active }
      else { s with last_acked_block := (b + 1) % 65536 } := by
  unfold app_data_transfer_control_write_handler
  rw [if_neg (by norm_num [control_msg_bytes, enc16, enc32])]
  obtain ⟨-, h0, h1, h2⟩ := control_msg_bytes_ack_fields b t
  rw [h0, h1, h2]
  rw [if_neg (by norm_num), if_neg (by norm_num), if_pos rfl]
  rw [le16_enc16 hb2]
  rw [if_pos hb]

theorem handler_ack_lt (s : tx_session) (conn b t now : Nat)
    (hlt : b < s.last_acked_block) (hb2 : b < 65536) :
    app_data_transfer_control_write_handler s conn (control_msg_bytes 3 b t) now = s := by
  unfold app_data_transfer_control_write_handler
  rw [if_neg (by norm_num [control_msg_bytes, enc16, enc32])]
  obtain ⟨-, h0, h1, h2⟩ := control_msg_bytes_ack_fields b t
  rw [h0, h1, h2]
  rw [if_neg (by norm_num), if_neg (by norm_num), if_pos rfl]
  rw [le16_enc16 hb2]
  rw [if_neg (by omega)]

theorem tick_to_waiting (s : tx_session) (now : Nat)
    (hact : s.current_state = .active) (hw : s.waiting_for_ack = false)
    (hcb : s.current_block < TOTAL_BLOCKS)
    (hchunk : s.current_chunk + 1 = chunks_in_block s)
    (hchunklt : s.current_chunk < 65535)
    (hcred : 0 < s.notification_credits)
    (hros : (s.current_block + 1) % ACK_INTERVAL = 0)
    (hlt : s.current_block + 1 < TOTAL_BLOCKS) :
    ∃ p : tx_session, app_data_transfer_process_next_chunk s .success now = (p, true) ∧
      p.current_state = .waiting_ack ∧ p.waiting_for_ack = true ∧
      p.current_block = s.current_block + 1 ∧ p.current_chunk = 0 ∧
      p.last_acked_block = s.last_acked_block := by
  unfold app_data_transfer_process_next_chunk
  rw [if_neg (by simp [hact]), if_neg (by simp [hw]), if_neg (by omega)]
  obtain ⟨p0, hp0, hst, hwa, hcb0, hcc0, hla0, hbs0, hacs0, hne0⟩ :=
    send_chunk_success s now hcred
  rw [hp0]
  dsimp only
  have hccm : (p0.current_chunk + 1) % 65536 = chunks_in_block s := by
    rw [hcc0]
    omega
  have hcin : (p0.current_block_size + p0.actual_chunk_size - 1) / p0.actual_chunk_size =
      chunks_in_block s := by
    rw [hbs0, hacs0]
    rfl
  rw [hccm, hcin, if_pos (le_refl _)]
  have hcbm : (p0.current_block + 1) % 65536 = s.current_block + 1 := by
    rw [hcb0]
    have : TOTAL_BLOCKS = 1800 := rfl
    omega
  rw [hcbm]
  rw [if_pos (show (s.current_block + 1) % ACK_INTERVAL = 0 ∧
    s.current_block + 1 < TOTAL_BLOCKS from ⟨hros, hlt⟩)]
  dsimp only
  rw [if_pos (show s.current_block + 1 < TOTAL_BLOCKS from hlt)]
  exact ⟨_, rfl, rfl, rfl, rfl, rfl, hla0⟩

/-! ## Claim C2 -/

/-- C2 (amended): after the sender successfully emits the last chunk of
block 19 from Active, it enters WaitingAck (block 20, chunk 0) and further
ticks send nothing and change nothing; an ACK(b) with
`b ≥ last_acked_block` sets `last_acked_block = (b + 1) mod 2^16` — equal
to `b + 1` for every `b < 65535`, the `uint16_t` wrap being the one
correction to the claim — and returns the session to Active; an ACK(b)
with `b < last_acked_block` leaves the session entirely unchanged. -/
theorem spec_c2 (s s1 s3 : tx_session) (st : gatt_status)
    (conn b t b2 c2 t2 now now2 now3 now4 : Nat)
    (hact : s.current_state = .active) (hw : s.waiting_for_ack = false)
    (hblk : s.current_block = 19)
    (hchunk : s.current_chunk + 1 = chunks_in_block s)
    (hchunklt : s.current_chunk < 65535)
    (hcred : 0 < s.notification_credits)
    (hs1 : app_data_transfer_process_next_chunk s .success now = (s1, true))
    (hb : s.last_acked_block ≤ b) (hb2 : b < 65536)
    (hb3 : b2 < s3.last_acked_block) (hb4 : b2 < 65536) :
    (s1.current_state = .waiting_ack ∧ s1.waiting_for_ack = true ∧
      s1.current_block = 20 ∧ s1.current_chunk = 0 ∧
      s1.last_acked_block = s.last_acked_block) ∧
    app_data_transfer_process_next_chunk s1 st now2 = (s1, false) ∧
    ((app_data_transfer_control_write_handler s1 conn
        (control_msg_bytes 3 b t) now3).last_acked_block = (b + 1) % 65536 ∧
      (app_data_transfer_control_write_handler s1 conn
        (control_msg_bytes 3 b t) now3).current_state = .active ∧
      (app_data_transfer_control_write_handler s1 conn
        (control_msg_bytes 3 b t) now3).waiting_for_ack = false) ∧
    app_data_transfer_control_write_handler s3 c2
      (control_msg_bytes 3 b2 t2) now4 = s3 := by
  obtain ⟨p, hp, hpst, hpw, hpcb, hpcc, hpla⟩ := tick_to_waiting s now hact hw
    (by rw [hblk]; norm_num [TOTAL_BLOCKS]) hchunk hchunklt hcred
    (by rw [hblk]; norm_num [ACK_INTERVAL]) (by rw [hblk]; norm_num [TOTAL_BLOCKS])
  rw [hp] at hs1
  have hps1 : p = s1 := congrArg Prod.fst hs1
  subst hps1
  have hA : p.current_state = .waiting_ack ∧ p.waiting_for_ack = true ∧
      p.current_block = 20 ∧ p.current_chunk = 0 ∧
      p.last_acked_block = s.last_acked_block :=
    ⟨hpst, hpw, by rw [hpcb, hblk], hpcc, hpla⟩
  refine ⟨hA, ?_, ?_, handler_ack_lt s3 c2 b2 t2 now4 hb3 hb4⟩
  · exact process_next_chunk_not_active p st now2 (by rw [hpst]; intro h; cases h)
  · rw [handler_ack_ge p conn b t now3 (by rw [hpla]; exact hb) hb2]
    rw [if_pos (by rw [hpw])]
    exact ⟨rfl, rfl, rfl⟩

/-- C2 counterexample: from a sender waiting at the block-19 ACK barrier
with `last_acked_block = 0`, the (valid `uint16_t`) ACK(65535) satisfies
`b ≥ last_acked_block` but sets `last_acked_block` to 0, not to
`b + 1 = 65536` — the claim fails at the wrap. -/
theorem spec_c2_cex :
    tx_waiting20.last_acked_block ≤ 65535 ∧
    (app_data_transfer_control_write_handler tx_waiting20 1
      (control_msg_bytes 3 65535 0) 0).last_acked_block = 0 ∧
    (0 : Nat) ≠ 65535 + 1 := by
  refine ⟨by decide, by decide, by decide⟩

/-- C2 witness: the amended theorem at the concrete block-19 sender state,
ACK(19) after the barrier, and a stale ACK(18) against a sender with
`last_acked_block = 20`. -/
theorem spec_c2_witness :
    (tx_block19_last.current_state = .active ∧
      tx_block19_last.waiting_for_ack = false ∧
      tx_block19_last.current_block = 19 ∧
      tx_block19_last.current_chunk + 1 = chunks_in_block tx_block19_last ∧
      tx_block19_last.current_chunk < 65535 ∧
      0 < tx_block19_last.notification_credits ∧
      tx_block19_last.last_acked_block ≤ 19 ∧ 19 < 65536 ∧
      18 < (app_data_transfer_control_write_handler tx_block19_last 1
        (control_msg_bytes 3 19 0) 0).last_acked_block ∧ 18 < 65536) ∧
    (((app_data_transfer_process_next_chunk tx_block19_last .success 0).1.current_state
        = .waiting_ack ∧
      (app_data_transfer_process_next_chunk tx_block19_last .success 0).1.waiting_for_ack
        = true ∧
      (app_data_transfer_process_next_chunk tx_block19_last .success 0).1.current_block
        = 20 ∧
      (app_data_transfer_process_next_chunk tx_block19_last .success 0).1.current_chunk
        = 0 ∧
      (app_data_transfer_process_next_chunk tx_block19_last .success 0).1.last_acked_block
        = tx_block19_last.last_acked_block) ∧
    app_data_transfer_process_next_chunk
      (app_data_transfer_process_next_chunk tx_block19_last .success 0).1 .congested 5 =
      ((app_data_transfer_process_next_chunk tx_block19_last .success 0).1, false) ∧
    ((app_data_transfer_control_write_handler
        (app_data_transfer_process_next_chunk tx_block19_last .success 0).1 1
        (control_msg_bytes 3 19 0) 0).last_acked_block = (19 + 1) % 65536 ∧
      (app_data_transfer_control_write_handler
        (app_data_transfer_process_next_chunk tx_block19_last .success 0).1 1
        (control_msg_bytes 3 19 0) 0).current_state = .active ∧
      (app_data_transfer_control_write_handler
        (app_data_transfer_process_next_chunk tx_block19_last .success 0).1 1
        (control_msg_bytes 3 19 0) 0).waiting_for_ack = false) ∧
    app_data_transfer_control_write_handler
      (app_data_transfer_control_write_handler tx_block19_last 1
        (control_msg_bytes 3 19 0) 0) 1 (control_msg_bytes 3 18 0) 0 =
      app_data_transfer_control_write_handler tx_block19_last 1
        (control_msg_bytes 3 19 0) 0) :=
  ⟨⟨by decide, by decide, by decide, by decide, by decide, by decide, by decide,
      by decide, by decide, by decide⟩,
    spec_c2 tx_block19_last
      (app_data_transfer_process_next_chunk tx_block19_last .success 0).1
      (app_data_transfer_control_write_handler tx_block19_last 1
        (control_msg_bytes 3 19 0) 0)
      .congested 1 19 0 18 1 0 0 5 0 0
      (by decide) (by decide) (by decide) (by decide) (by decide) (by decide)
      (by decide) (by decide) (by decide) (by decide) (by decide)⟩

/-! ## Claim C8 -/

theorem send_chunk_preserves (s : tx_session) (st : gatt_status) (now : Nat) :
    (send_chunk s st now).1.current_block = s.current_block ∧
    (send_chunk s st now).1.last_acked_block = s.last_acked_block ∧
    (send_chunk s st now).1.current_chunk = s.current_chunk := by
  unfold send_chunk
  dsimp only
  refine ⟨?_, ?_, ?_⟩ <;> (repeat' split) <;> rfl

/-- C8 (amended): for every sender state reachable by operation sequences
whose ACK control writes carry a block number below the current block (the
acknowledgements a receiver of delivered blocks can produce), the
invariant `last_acked_block ≤ current_block ≤ TOTAL_BLOCKS` holds.  The
unrestricted claim fails: the handler accepts any `block_number ≥
last_acked_block` (see the counterexample). -/
theorem spec_c8 (s : tx_session) (h : tx_reachable s) :
    s.last_acked_block ≤ s.current_block ∧ s.current_block ≤ TOTAL_BLOCKS := by
  induction h with
  | init => exact ⟨le_refl 0, by norm_num [app_data_transfer_init, TOTAL_BLOCKS]⟩
  | step s op hre hok ih =>
    obtain ⟨ih1, ih2⟩ := ih
    cases op with
    | set_mtu mtu => exact ⟨ih1, ih2⟩
    | start conn now =>
      dsimp only [tx_apply]
      unfold app_data_transfer_start
      split
      · exact ⟨ih1, ih2⟩
      · exact ⟨le_refl 0, by norm_num [TOTAL_BLOCKS]⟩
    | stop => exact ⟨ih1, ih2⟩
    | pause =>
      dsimp only [tx_apply]
      unfold app_data_transfer_pause
      split
      · exact ⟨ih1, ih2⟩
      · exact ⟨ih1, ih2⟩
    | resume conn =>
      dsimp only [tx_apply]
      unfold app_data_transfer_resume
      split
      · exact ⟨ih1, ih2⟩
      · split
        · exact ⟨ih1, ih2⟩
        · exact ⟨le_refl _, le_trans ih1 ih2⟩
    | next_chunk st now =>
      dsimp only [tx_apply]
      unfold app_data_transfer_process_next_chunk
      split
      · exact ⟨ih1, ih2⟩
      · split
        · exact ⟨ih1, ih2⟩
        · split
          · exact ⟨ih1, ih2⟩
          · rename_i hact hw hcb
            obtain ⟨hp1, hp2, hp3⟩ := send_chunk_preserves s st now
            rcases hsc : send_chunk s st now with ⟨p, sent⟩
            rw [hsc] at hp1 hp2 hp3
            dsimp only at hp1 hp2 hp3
            cases sent with
            | false => exact ⟨hp2.le.trans (hp1 ▸ ih1), hp1 ▸ ih2⟩
            | true =>
              dsimp only
              split
              · split
                · split
                  · refine ⟨?_, ?_⟩ <;>
                      (dsimp only; simp only [TOTAL_BLOCKS] at hcb ih2 ⊢; omega)
                  · refine ⟨?_, ?_⟩ <;>
                      (dsimp only; simp only [TOTAL_BLOCKS] at hcb ih2 ⊢; omega)
                · split
                  · refine ⟨?_, ?_⟩ <;>
                      (dsimp only; simp only [TOTAL_BLOCKS] at hcb ih2 ⊢; omega)
                  · refine ⟨?_, ?_⟩ <;>
                      (dsimp only; simp only [TOTAL_BLOCKS] at hcb ih2 ⊢; omega)
              · refine ⟨?_, ?_⟩ <;> (dsimp only; omega)
    | control conn data now =>
      dsimp only [tx_apply]
      unfold app_data_transfer_control_write_handler
      split
      · exact ⟨ih1, ih2⟩
      · dsimp only
        split
        · unfold app_data_transfer_start
          split
          · exact ⟨ih1, ih2⟩
          · exact ⟨le_refl 0, by norm_num [TOTAL_BLOCKS]⟩
        · split
          · exact ⟨ih1, ih2⟩
          · split
            · rename_i hlen hc1 hc2 hc3
              have hwin : le16 (data.getD 1 0) (data.getD 2 0) < s.current_block :=
                hok (by omega) hc3
              split
              · split
                · refine ⟨?_, ih2⟩
                  dsimp only
                  simp only [TOTAL_BLOCKS] at ih2
                  omega
                · refine ⟨?_, ih2⟩
                  dsimp only
                  simp only [TOTAL_BLOCKS] at ih2
                  omega
              · exact ⟨ih1, ih2⟩
            · exact ⟨ih1, ih2⟩
    | cccd conn enabled =>
      dsimp only [tx_apply]
      unfold app_data_transfer_cccd_write_handler app_data_transfer_pause
      dsimp only
      split
      · split
        · exact ⟨ih1, ih2⟩
        · exact ⟨ih1, ih2⟩
      · exact ⟨ih1, ih2⟩
    | notif_sent =>
      dsimp only [tx_apply]
      unfold app_data_transfer_notification_sent
      split
      · exact ⟨ih1, ih2⟩
      · exact ⟨ih1, ih2⟩

/-- C8 counterexample: enabling notifications, starting, and then writing
ACK(100) — an arbitrary control-channel write, explicitly allowed by the
claim — yields `last_acked_block = 101 > current_block = 0`, violating
`last_acked_block ≤ cur_block`. -/
theorem spec_c8_cex :
    tx_bad.last_acked_block = 101 ∧ tx_bad.current_block = 0 ∧
    ¬ tx_bad.last_acked_block ≤ tx_bad.current_block := by
  refine ⟨by decide, by decide, by decide⟩

/-- C8 witness: the amended invariant at the initial sender state. -/
theorem spec_c8_witness :
    app_data_transfer_init.last_acked_block ≤ app_data_transfer_init.current_block ∧
    app_data_transfer_init.current_block ≤ TOTAL_BLOCKS :=
  spec_c8 app_data_transfer_init tx_reachable.init

/-! ## Claim C3 -/

theorem toPairs_length : ∀ l : List Nat, (toPairs l).length = l.length / 2
  | [] => rfl
  | [_] => by simp [toPairs]
  | _ :: _ :: rest => by
    show (toPairs rest).length + 1 = _
    rw [toPairs_length rest]
    show rest.length / 2 + 1 = (rest.length + 1 + 1) / 2
    omega

theorem delta_decode_from_eq (a : Int) (ps : List (Nat × Nat)) :
    delta_decode_from a ps = (List.range ps.length).map
      (fun i => a + ((ps.take (i + 1)).map (fun p => toInt16 (le16 p.1 p.2))).sum) := by
  induction ps generalizing a with
  | nil => rfl
  | cons p rest ih =>
    obtain ⟨b0, b1⟩ := p
    show (a + toInt16 (le16 b0 b1)) :: delta_decode_from (a + toInt16 (le16 b0 b1)) rest = _
    rw [ih (a + toInt16 (le16 b0 b1))]
    rw [List.length_cons, List.range_succ_eq_map, List.map_cons, List.map_map]
    congr 1
    · simp
    · apply List.map_congr_left
      intro i _
      show (a + toInt16 (le16 b0 b1)) +
        ((rest.take (i + 1)).map (fun p => toInt16 (le16 p.1 p.2))).sum = _
      rw [Function.comp]
      show _ = a + ((((b0, b1) :: rest).take (i + 1 + 1)).map
        (fun p => toInt16 (le16 p.1 p.2))).sum
      rw [List.take_succ_cons, List.map_cons, List.sum_cons]
      ring

theorem delta_decode_from_eq_spec (buf : List Nat) (h : buf.length = 4752) :
    delta_decode_from 0 (toPairs buf) = delta_decode_spec buf := by
  rw [delta_decode_from_eq, toPairs_length, h]
  unfold delta_decode_spec
  apply List.map_congr_left
  intro i _
  rw [Int.zero_add]

theorem calculate_crc32_samples_eq_data (samples : List Int) :
    calculate_crc32_samples samples =
      calculate_crc32_data ((samples.map sample_le_bytes).flatten) := by
  unfold calculate_crc32_samples calculate_crc32_data
  rw [List.foldl_flatten, List.foldl_map]

/-- C3: the receiver's compressed-block decode succeeds exactly when the
(abstracted zlib) inflation of the payload past the 38-byte header yields
exactly `2 * 2376 = 4752` bytes, the output samples are the running sums
from a zero seed of the little-endian signed 16-bit deltas, and the
CRC-32 (polynomial `0xEDB88320`, init and final xor `0xFFFFFFFF`, as
implemented by `calculate_crc32_data`) of the packed 24-bit little-endian
form of the reconstructed samples equals the header's `crc32` field; a
mismatch in any of these fails the block. -/
theorem spec_c3 (inflate : List Nat → Option (List Nat)) (block : List Nat)
    (w : waveform_header × List Int) :
    process_compressed_block inflate block = some w ↔
      (WAVEFORM_HEADER_SIZE ≤ block.length ∧
        w.1 = parse_waveform_header block ∧
        (∃ buf, inflate (block.drop WAVEFORM_HEADER_SIZE) = some buf ∧
          buf.length = 4752 ∧ w.2 = delta_decode_spec buf) ∧
        calculate_crc32_data ((w.2.map sample_le_bytes).flatten) = w.1.crc32) := by
  unfold process_compressed_block decompress_waveform
  constructor
  · intro h
    split at h
    · exact absurd h (by simp)
    · rename_i hlen
      split at h
      · exact absurd h (by simp)
      · rename_i samples hinf
        split at hinf
        · exact absurd hinf (by simp)
        · rename_i buf hinfl
          split at hinf
          · rename_i hblen
            rw [Option.some_inj] at hinf
            dsimp only at h
            split at h
            · exact absurd h (by simp)
            · rename_i hcrc
              rw [Option.some_inj] at h
              subst h
              have hb4752 : buf.length = 4752 := by
                simpa [SAMPLES_PER_WAVEFORM] using hblen
              refine ⟨by omega, rfl, ⟨buf, hinfl, hb4752, ?_⟩, ?_⟩
              · rw [← hinf, ← delta_decode_from_eq_spec buf hb4752]
              · rw [← calculate_crc32_samples_eq_data]
                simpa using hcrc
          · exact absurd hinf (by simp)
  · rintro ⟨hlen, hw1, ⟨buf, hinfl, hblen, hw2⟩, hcrc⟩
    rw [if_neg (by omega), hinfl]
    dsimp only
    rw [if_pos (show buf.length = SAMPLES_PER_WAVEFORM * 2 by
      simpa [SAMPLES_PER_WAVEFORM] using hblen)]
    dsimp only
    have hdd : delta_decode_from 0 (toPairs buf) = w.2 := by
      rw [delta_decode_from_eq_spec buf hblen, hw2]
    rw [hdd]
    rw [if_neg (show ¬ calculate_crc32_samples w.2 ≠ (parse_waveform_header block).crc32 by
      rw [calculate_crc32_samples_eq_data, ← hw1]
      simpa using hcrc)]
    rw [← hw1]

/-! ## Claim C5 support -/

theorem alookup_append {α : Type} (xs ys : List (Nat × α)) (k : Nat) :
    alookup (xs ++ ys) k =
      match alookup xs k with
      | some v => some v
      | none => alookup ys k := by
  induction xs with
  | nil => rfl
  | cons p rest ih =>
    obtain ⟨k1, v1⟩ := p
    by_cases hk : k1 = k
    · rw [List.cons_append, alookup_cons, if_pos hk, alookup_cons, if_pos hk]
    · rw [List.cons_append, alookup_cons, if_neg hk, alookup_cons, if_neg hk]
      exact ih

theorem alookup_range_map {α : Type} (f : Nat → α) (n i : Nat) :
    alookup ((List.range n).map (fun j => (j, f j))) i =
      if i < n then some (f i) else none := by
  induction n with
  | zero => simp [alookup]
  | succ n ih =>
    rw [List.range_succ, List.map_append, alookup_append, ih]
    by_cases hi : i < n
    · rw [if_pos hi, if_pos (show i < n + 1 by omega)]
    · rw [if_neg hi]
      dsimp only [List.map_cons, List.map_nil]
      by_cases hin : i = n
      · rw [hin]
        rw [alookup_cons, if_pos rfl, if_pos (show n < n + 1 by omega)]
      · rw [alookup_cons, if_neg (show ¬ n = i by omega),
          if_neg (show ¬ i < n + 1 by omega)]
        rfl

theorem count_completions_append (a b : List rx_event) :
    count_completions (a ++ b) = count_completions a + count_completions b := by
  induction a with
  | nil => simp [count_completions]
  | cons e rest ih =>
    cases e with
    | completion =>
      show count_completions (rest ++ b) + 1 = count_completions rest + 1 + count_completions b
      rw [ih]
      omega
    | waveform h smp c => exact ih
    | ack bn => exact ih
    | progress => exact ih

theorem run_chunks_snoc (inflate : List Nat → Option (List Nat))
    (s : transfer_session) (xs : List (List Nat)) (x : List Nat) :
    run_chunks inflate s (xs ++ [x]) =
      ((transfer_session_process_chunk inflate (run_chunks inflate s xs).1 x).1,
        (run_chunks inflate s xs).2 ++
          (transfer_session_process_chunk inflate (run_chunks inflate s xs).1 x).2.1) := by
  unfold run_chunks
  rw [List.foldl_append]
  rfl

theorem ainsert_length_of_contains {α : Type} (m : List (Nat × α)) (k : Nat) (v : α)
    (h : acontains m k = true) : (ainsert m k v).length = m.length := by
  rw [ainsert_pos m k v h, List.length_map]

theorem keys_ainsert_of_contains {α : Type} (m : List (Nat × α)) (k : Nat) (v : α)
    (h : acontains m k = true) :
    (ainsert m k v).map Prod.fst = m.map Prod.fst := by
  rw [ainsert_pos m k v h, List.map_map]
  apply List.map_congr_left
  intro p _
  obtain ⟨k1, v1⟩ := p
  by_cases hk : k1 = k <;> simp [Function.comp, hk]

theorem keys_ainsert_of_not_contains {α : Type} (m : List (Nat × α)) (k : Nat) (v : α)
    (h : acontains m k = false) :
    (ainsert m k v).map Prod.fst = m.map Prod.fst ++ [k] := by
  rw [ainsert_neg m k v h, List.map_append]
  rfl

theorem not_mem_keys_of_not_contains {α : Type} (m : List (Nat × α)) (k : Nat)
    (h : acontains m k = false) : k ∉ m.map Prod.fst := by
  intro hmem
  obtain ⟨p, hp, hfst⟩ := List.mem_map.mp hmem
  exact not_mem_keys_of_lookup_none (alookup_eq_none_of_not_contains m k h) p hp hfst

theorem completion_not_mem_wevs (inflate : List Nat → Option (List Nat))
    (s : transfer_session) (data : List Nat) :
    rx_event.completion ∉ pc_wevs inflate s data := by
  unfold pc_wevs
  rcases pc_decoded inflate s data with _ | ⟨h, smp⟩ <;> simp

theorem completion_not_mem_aevs (data : List Nat) :
    rx_event.completion ∉ pc_aevs data := by
  unfold pc_aevs
  split <;> simp

theorem rx_inv_step (inflate : List Nat → Option (List Nat)) (s : transfer_session)
    (data : List Nat) (h : rx_inv s) :
    rx_inv (transfer_session_process_chunk inflate s data).1 := by
  by_cases h12 : data.length < 12
  · rw [process_chunk_short inflate s h12]
    exact h
  by_cases hbn : TOTAL_BLOCKS ≤ pc_bn data
  · rw [process_chunk_bad_block inflate s h12 hbn]
    exact h
  by_cases hcomp : (pc_inner s data).length = pc_total data
  · rw [process_chunk_complete inflate s h12 hbn hcomp]
    have hrb : rx_inv { s with received_blocks := pc_rb s data } := by
      constructor
      · show ((pc_rb s data).map Prod.fst).Nodup
        unfold pc_rb
        by_cases hc : acontains s.received_blocks (pc_bn data) = true
        · rw [keys_ainsert_of_contains _ _ _ hc]
          exact h.1
        · rw [keys_ainsert_of_not_contains _ _ _ (by simpa using hc)]
          rw [List.nodup_append]
          exact ⟨h.1, List.nodup_singleton _,
            by simpa using not_mem_keys_of_not_contains _ _ (by simpa using hc)⟩
      · show ∀ k ∈ (pc_rb s data).map Prod.fst, k < TOTAL_BLOCKS
        unfold pc_rb
        by_cases hc : acontains s.received_blocks (pc_bn data) = true
        · rw [keys_ainsert_of_contains _ _ _ hc]
          exact h.2
        · rw [keys_ainsert_of_not_contains _ _ _ (by simpa using hc)]
          intro k hk
          rcases List.mem_append.mp hk with hk1 | hk2
          · exact h.2 k hk1
          · have : k = pc_bn data := by simpa using hk2
            omega
    split
    · exact hrb
    · exact hrb
  · rw [process_chunk_store inflate s h12 hbn hcomp]
    exact h

theorem rx_inv_reachable (s : transfer_session) (h : rx_reachable s) : rx_inv s := by
  induction h with
  | created => exact ⟨List.nodup_nil, by simp [transfer_session_create]⟩
  | started s hre ih => exact ⟨List.nodup_nil, by simp [transfer_session_start]⟩
  | stopped s hre ih => exact ih
  | stepped s inflate data hre ih => exact rx_inv_step inflate s data ih

theorem rx_card_le (s : transfer_session) (h : rx_inv s) :
    s.received_blocks.length ≤ TOTAL_BLOCKS := by
  have hsub : s.received_blocks.map Prod.fst ⊆ List.range TOTAL_BLOCKS := by
    intro k hk
    exact List.mem_range.mpr (h.2 k hk)
  have hle := (List.subperm_of_subset h.1 hsub).length_le
  rw [List.length_map, List.length_range] at hle
  exact hle

theorem completion_iff (inflate : List Nat → Option (List Nat))
    (s : transfer_session) (data : List Nat) :
    rx_event.completion ∈ (transfer_session_process_chunk inflate s data).2.1 ↔
      ((transfer_session_process_chunk inflate s data).1.received_blocks.length
          = TOTAL_BLOCKS ∧
        rx_event.progress ∈ (transfer_session_process_chunk inflate s data).2.1) := by
  by_cases h12 : data.length < 12
  · rw [process_chunk_short inflate s h12]
    simp
  by_cases hbn : TOTAL_BLOCKS ≤ pc_bn data
  · rw [process_chunk_bad_block inflate s h12 hbn]
    simp
  by_cases hcomp : (pc_inner s data).length = pc_total data
  · rw [process_chunk_complete inflate s h12 hbn hcomp]
    split
    · rename_i hfull
      constructor
      · intro _
        refine ⟨hfull, ?_⟩
        simp
      · intro _
        simp
    · rename_i hnfull
      constructor
      · intro hmem
        exfalso
        rcases List.mem_append.mp hmem with hm | hm
        · rcases List.mem_append.mp hm with hm2 | hm2
          · exact completion_not_mem_wevs inflate s data hm2
          · exact completion_not_mem_aevs data hm2
        · simp at hm
      · intro ⟨hlen, _⟩
        exact absurd hlen hnfull
  · rw [process_chunk_store inflate s h12 hbn hcomp]
    simp

theorem pc_bc1_of_empty (s : transfer_session) (data : List Nat)
    (hbc : s.block_chunks = []) :
    pc_bc1 s data = [(pc_bn data, [(pc_cn data, pc_payload data)])] := by
  unfold pc_bc1
  rw [hbc]
  rw [if_neg (by simp [acontains, alookup])]
  rw [List.nil_append]
  unfold amodify
  rw [List.map_cons, List.map_nil]
  dsimp only
  rw [if_pos rfl]
  rw [ainsert_neg _ _ _ (by simp [acontains, alookup])]
  rfl

theorem pc_inner_of_empty (s : transfer_session) (data : List Nat)
    (hbc : s.block_chunks = []) :
    pc_inner s data = [(pc_cn data, pc_payload data)] := by
  unfold pc_inner
  rw [pc_bc1_of_empty s data hbc, alookup_cons, if_pos rfl]
  rfl

theorem frame_for_fields (k : Nat) (hk : k < 65536) :
    pc_bn (frame_for k) = k ∧ pc_cn (frame_for k) = 0 ∧
    pc_cs (frame_for k) = 0 ∧ pc_total (frame_for k) = 1 ∧
    pc_payload (frame_for k) = [] ∧ (frame_for k).length = 12 := by
  refine ⟨?_, ?_, ?_, ?_, ?_, by simp [frame_for]⟩
  · show le16 (k % 256) (k / 256) = k
    rw [le16_eq (k / 256) (Nat.mod_lt _ (by omega))]
    omega
  · show le16 0 0 = 0
    rw [le16_eq 0 (by omega)]
  · show le16 0 0 = 0
    rw [le16_eq 0 (by omega)]
  · show le16 1 0 = 1
    rw [le16_eq 0 (by omega)]
  · show List.take (pc_cs (frame_for k)) (List.drop 12 (frame_for k)) = []
    rw [show pc_cs (frame_for k) = 0 from by
      show le16 0 0 = 0
      rw [le16_eq 0 (by omega)]]
    exact List.take_zero _

theorem c5_step (k : Nat) (hk : k < 1800) :
    transfer_session_process_chunk inflate_none (s_after k) (frame_for k) =
      (s_after (k + 1), c5_evs k, true) := by
  obtain ⟨hbn, hcn, hcs, htot, hp, hlen⟩ := frame_for_fields k (by omega)
  have h12 : ¬ (frame_for k).length < 12 := by omega
  have hbn2 : ¬ TOTAL_BLOCKS ≤ pc_bn (frame_for k) := by
    rw [hbn]
    simp only [TOTAL_BLOCKS]
    omega
  have hinner : pc_inner (s_after k) (frame_for k) = [(0, [])] := by
    rw [pc_inner_of_empty _ _ rfl, hcn, hp]
  have hc : (pc_inner (s_after k) (frame_for k)).length = pc_total (frame_for k) := by
    rw [hinner, htot]
    rfl
  have hblock : pc_block (s_after k) (frame_for k) = [] := by
    unfold pc_block
    rw [hinner, htot]
    rfl
  have hnotin : acontains ((List.range k).map (fun j => (j, ([] : List Nat)))) k
      = false := by
    unfold acontains
    rw [alookup_range_map]
    rw [if_neg (lt_irrefl k)]
    rfl
  have hrb : pc_rb (s_after k) (frame_for k) =
      (List.range (k + 1)).map (fun j => (j, ([] : List Nat))) := by
    unfold pc_rb
    rw [hblock, hbn]
    show ainsert ((List.range k).map (fun j => (j, ([] : List Nat)))) k [] = _
    rw [ainsert_neg _ _ _ hnotin, List.range_succ, List.map_append]
    rfl
  have hwevs : pc_wevs inflate_none (s_after k) (frame_for k) = [] := by
    unfold pc_wevs pc_decoded pc_is_compressed
    rw [hblock]
    rfl
  have haevs : pc_aevs (frame_for k) =
      (if 0 < k ∧ (k + 1) % ACK_INTERVAL = 0 then [rx_event.ack k] else []) := by
    unfold pc_aevs
    rw [hbn]
  have hbec : pc_bec0 (s_after k) (frame_for k) = [(k, 1)] := by
    unfold pc_bec0
    rw [if_neg (by simp [s_after, acontains, alookup])]
    rw [hbn, htot]
    show ([] : List (Nat × Nat)) ++ [(k, 1)] = [(k, 1)]
    rfl
  have herase1 : aerase (pc_bc1 (s_after k) (frame_for k)) (pc_bn (frame_for k))
      = [] := by
    rw [pc_bc1_of_empty _ _ rfl]
    simp [aerase]
  have herase2 : aerase (pc_bec0 (s_after k) (frame_for k)) (pc_bn (frame_for k))
      = [] := by
    rw [hbec, hbn]
    simp [aerase]
  have hs2 : pc_s2 (s_after k) (frame_for k) =
      { is_active := decide (k < 1800),
        received_blocks := (List.range (k + 1)).map (fun j => (j, ([] : List Nat))),
        block_chunks := [], block_expected_chunks := [], last_acked_block := 0,
        total_bytes_received := 0,
        total_chunks_received := (k + 1) % 4294967296 } := by
    unfold pc_s2 pc_s1
    rw [hrb, herase1, herase2, hcs]
    show ({
      is_active := decide (k < 1800),
      received_blocks := (List.range (k + 1)).map (fun j => (j, ([] : List Nat))),
      block_chunks := [], block_expected_chunks := [], last_acked_block := 0,
      total_bytes_received := (0 + 0) % 4294967296,
      total_chunks_received := (k + 1) % 4294967296 } : transfer_session) = _
    norm_num
  rw [process_chunk_complete inflate_none (s_after k) h12 hbn2 hc]
  rw [hrb, hwevs, haevs, hs2]
  rw [List.length_map, List.length_range]
  have hchunks : (k + 1) % 4294967296 = k + 1 := by omega
  by_cases hfull : k + 1 = TOTAL_BLOCKS
  · rw [if_pos hfull]
    simp only [TOTAL_BLOCKS] at hfull
    unfold c5_evs s_after
    rw [if_pos hfull, hchunks]
    rw [show decide (k + 1 < 1800) = false from decide_eq_false (by omega)]
    rfl
  · rw [if_neg hfull]
    simp only [TOTAL_BLOCKS] at hfull
    unfold c5_evs s_after
    rw [if_neg hfull, hchunks]
    rw [show decide (k + 1 < 1800) = true from decide_eq_true (by omega)]
    rw [show decide (k < 1800) = true from decide_eq_true hk]
    rfl


/-- `run_chunks` is the event-accumulating fold, written without the `let`. -/
theorem run_chunks_eq (inflate : List Nat → Option (List Nat))
    (s : transfer_session) (fs : List (List Nat)) :
    run_chunks inflate s fs =
      List.foldl (fun acc frame =>
        ((transfer_session_process_chunk inflate acc.1 frame).1,
          acc.2 ++ (transfer_session_process_chunk inflate acc.1 frame).2.1))
        (s, []) fs := rfl

/-- Starting the fold with an already-accumulated event list just prefixes
that list onto the events of the run. -/
theorem run_fold_acc (inflate : List Nat → Option (List Nat))
    (b : List (List Nat)) (s : transfer_session) (evs : List rx_event) :
    List.foldl (fun acc frame =>
        ((transfer_session_process_chunk inflate acc.1 frame).1,
          acc.2 ++ (transfer_session_process_chunk inflate acc.1 frame).2.1))
      (s, evs) b =
    ((run_chunks inflate s b).1, evs ++ (run_chunks inflate s b).2) := by
  induction b generalizing s evs with
  | nil =>
    rw [run_chunks_eq]
    simp
  | cons f fs ih =>
    rw [List.foldl_cons]
    dsimp only
    rw [ih _ (evs ++ (transfer_session_process_chunk inflate s f).2.1)]
    rw [run_chunks_eq inflate s (f :: fs), List.foldl_cons]
    dsimp only
    rw [ih _ ([] ++ (transfer_session_process_chunk inflate s f).2.1)]
    dsimp only
    rw [List.nil_append, List.append_assoc]

/-- Feeding `a ++ b` equals feeding `a`, then feeding `b` from the resulting
state, with the event lists concatenated. -/
theorem run_chunks_append (inflate : List Nat → Option (List Nat))
    (s : transfer_session) (a b : List (List Nat)) :
    run_chunks inflate s (a ++ b) =
      ((run_chunks inflate (run_chunks inflate s a).1 b).1,
        (run_chunks inflate s a).2 ++
          (run_chunks inflate (run_chunks inflate s a).1 b).2) := by
  rw [run_chunks_eq inflate s (a ++ b), List.foldl_append,
    ← run_chunks_eq inflate s a]
  rw [show run_chunks inflate s a =
    ((run_chunks inflate s a).1, (run_chunks inflate s a).2) from rfl]
  rw [run_fold_acc inflate b (run_chunks inflate s a).1 (run_chunks inflate s a).2]

/-- Closed form of the canonical full run: after `n ≤ 1800` one-chunk frames
the session is `s_after n` and the events are the per-feed event lists in
order. -/
theorem c5_run (n : Nat) (hn : n ≤ 1800) :
    run_chunks inflate_none (s_after 0) (c5_frames n) =
      (s_after n, ((List.range n).map c5_evs).flatten) := by
  induction n with
  | zero => rfl
  | succ n ih =>
    have hfr : c5_frames (n + 1) = c5_frames n ++ [frame_for n] := by
      unfold c5_frames
      rw [List.range_succ, List.map_append]
      rfl
    rw [hfr, run_chunks_append, ih (by omega)]
    dsimp only
    have hstep : run_chunks inflate_none (s_after n) [frame_for n] =
        (s_after (n + 1), c5_evs n) := by
      rw [run_chunks_eq, List.foldl_cons]
      dsimp only
      rw [List.foldl_nil, c5_step n (by omega)]
      rfl
    rw [hstep]
    rw [List.range_succ, List.map_append, List.flatten_append]
    simp

/-- The canonical run fires the completion callback exactly once, at the
1800th feed. -/
theorem c5_count (n : Nat) (hn : n ≤ 1800) :
    count_completions (((List.range n).map c5_evs).flatten) =
      if n = 1800 then 1 else 0 := by
  induction n with
  | zero => simp [count_completions]
  | succ n ih =>
    rw [List.range_succ, List.map_append, List.flatten_append,
      count_completions_append, ih (by omega)]
    have hcnt : count_completions ((List.map c5_evs [n]).flatten) =
        if n + 1 = 1800 then 1 else 0 := by
      show count_completions (c5_evs n ++ []) = _
      rw [List.append_nil]
      unfold c5_evs
      rw [count_completions_append]
      by_cases h2 : n + 1 = 1800
      · rw [if_pos h2, if_pos h2]
        by_cases h1 : 0 < n ∧ (n + 1) % ACK_INTERVAL = 0
        · rw [if_pos h1]
          rfl
        · rw [if_neg h1]
          rfl
      · rw [if_neg h2, if_neg h2]
        by_cases h1 : 0 < n ∧ (n + 1) % ACK_INTERVAL = 0
        · rw [if_pos h1]
          rfl
        · rw [if_neg h1]
          rfl
    rw [hcnt, if_neg (show ¬ n = 1800 by omega), Nat.zero_add]

/-- The completed set of the canonical state, as a range map. -/
theorem s_after_rb (k : Nat) :
    (s_after k).received_blocks = (List.range k).map (fun j => (j, ([] : List Nat))) := rfl

/-- Feeding the single chunk of block 0 again, after all 1800 blocks have
completed, fires the completion callback a second time: the duplicate
re-completes block 0, `received_blocks` still has size 1800, and the
size test at the end of `process_chunk` passes again. -/
theorem c5_dup_evs :
    (transfer_session_process_chunk inflate_none (s_after 1800) (frame_for 0)).2.1 =
      [rx_event.progress, rx_event.completion] := by
  obtain ⟨hbn, hcn, hcs, htot, hp, hlen⟩ := frame_for_fields 0 (by omega)
  have h12 : ¬ (frame_for 0).length < 12 := by omega
  have hbn2 : ¬ TOTAL_BLOCKS ≤ pc_bn (frame_for 0) := by
    rw [hbn]
    simp only [TOTAL_BLOCKS]
    omega
  have hinner : pc_inner (s_after 1800) (frame_for 0) = [(0, [])] := by
    rw [pc_inner_of_empty _ _ rfl, hcn, hp]
  have hc : (pc_inner (s_after 1800) (frame_for 0)).length = pc_total (frame_for 0) := by
    rw [hinner, htot]
    rfl
  have hblock : pc_block (s_after 1800) (frame_for 0) = [] := by
    unfold pc_block
    rw [hinner, htot]
    rfl
  have hcont : acontains (s_after 1800).received_blocks (pc_bn (frame_for 0)) = true := by
    rw [hbn, s_after_rb]
    unfold acontains
    rw [alookup_range_map]
    rw [if_pos (by omega)]
    rfl
  have hrblen : (pc_rb (s_after 1800) (frame_for 0)).length = TOTAL_BLOCKS := by
    unfold pc_rb ainsert
    rw [if_pos hcont]
    rw [List.length_map, s_after_rb, List.length_map, List.length_range]
    rfl
  have hwevs : pc_wevs inflate_none (s_after 1800) (frame_for 0) = [] := by
    unfold pc_wevs pc_decoded pc_is_compressed
    rw [hblock]
    rfl
  have haevs : pc_aevs (frame_for 0) = [] := by
    unfold pc_aevs
    rw [hbn]
    rw [if_neg (fun hcontra => absurd hcontra.1 (lt_irrefl 0))]
  rw [process_chunk_complete inflate_none (s_after 1800) h12 hbn2 hc]
  rw [if_pos hrblen]
  dsimp only
  rw [hwevs, haevs]
  rfl

/-- C5: for every reachable receiver session the completed-set cardinality is
at most `TOTAL_BLOCKS = 1800`, and a `process_chunk` call invokes the
on-completion callback iff the frame was accepted (a progress callback fired)
and the resulting completed set has cardinality exactly `TOTAL_BLOCKS`.  The
claim's further "at most once per session" part is refuted by the
counterexample: a duplicate chunk fed after completion fires the callback a
second time within the same session lifetime. -/
theorem spec_c5 (inflate : List Nat → Option (List Nat)) (s : transfer_session)
    (h : rx_reachable s) (data : List Nat) :
    s.received_blocks.length ≤ TOTAL_BLOCKS ∧
    (rx_event.completion ∈ (transfer_session_process_chunk inflate s data).2.1 ↔
      ((transfer_session_process_chunk inflate s data).1.received_blocks.length
          = TOTAL_BLOCKS ∧
        rx_event.progress ∈ (transfer_session_process_chunk inflate s data).2.1)) :=
  ⟨rx_card_le s (rx_inv_reachable s h), completion_iff inflate s data⟩

/-- Witness for C5: the freshly created session and the empty frame. -/
theorem spec_c5_witness :
    transfer_session_create.received_blocks.length ≤ TOTAL_BLOCKS ∧
    (rx_event.completion ∈
        (transfer_session_process_chunk inflate_none transfer_session_create []).2.1 ↔
      ((transfer_session_process_chunk inflate_none transfer_session_create
            []).1.received_blocks.length = TOTAL_BLOCKS ∧
        rx_event.progress ∈
          (transfer_session_process_chunk inflate_none transfer_session_create
            []).2.1)) :=
  spec_c5 inflate_none transfer_session_create rx_reachable.created []

/-- Counterexample to C5's "at most once per session": within one lifetime
(a single `start()`, no further `start()`), feeding the 1800 one-chunk
blocks and then a duplicate chunk of block 0 invokes the on-completion
callback twice. -/
theorem spec_c5_cex :
    count_completions
      (run_chunks inflate_none (transfer_session_start transfer_session_create)
        (c5_frames 1800 ++ [frame_for 0])).2 = 2 := by
  have hs0 : transfer_session_start transfer_session_create = s_after 0 := rfl
  rw [hs0, run_chunks_append, c5_run 1800 (le_refl 1800)]
  dsimp only
  have hone : (run_chunks inflate_none (s_after 1800) [frame_for 0]).2 =
      [rx_event.progress, rx_event.completion] := by
    rw [run_chunks_eq, List.foldl_cons]
    dsimp only
    rw [List.foldl_nil]
    dsimp only
    rw [List.nil_append, c5_dup_evs]
  rw [count_completions_append, hone, c5_count 1800 (le_refl 1800)]
  rfl


/-! ## Claim C1: header and sample roundtrips -/

/-- `parse_waveform_header` on an explicit 38-byte prefix. -/
theorem parse_explicit (b0 b1 b2 b3 b4 b5 b6 b7 b8 b9 b10 b11 b12 b13 b14 b15
    b16 b17 b18 b19 b20 b21 b22 b23 b24 b25 b26 b27 b28 b29 b30 b31 b32 b33
    b34 b35 b36 b37 : Nat) (rest : List Nat) :
    parse_waveform_header ([b0, b1, b2, b3, b4, b5, b6, b7, b8, b9, b10, b11,
        b12, b13, b14, b15, b16, b17, b18, b19, b20, b21, b22, b23, b24, b25,
        b26, b27, b28, b29, b30, b31, b32, b33, b34, b35, b36, b37] ++ rest) =
      { block_number := le32 b0 b1 b2 b3,
        timestamp_ms := le32 b4 b5 b6 b7,
        sample_rate_hz := le32 b8 b9 b10 b11,
        sample_count := le16 b12 b13,
        trigger_sample := le16 b16 b17,
        pulse_freq_hz := le32 b18 b19 b20 b21,
        temperature_cx10 := toInt16 (le16 b26 b27),
        gain_db := b28,
        crc32 := le32 b30 b31 b32 b33 } := rfl

/-- The 38-byte header layout round-trips through serialization whenever
every field fits its slot. -/
theorem parse_encode_roundtrip (hd : waveform_header) (rest : List Nat)
    (hv : header_fields_valid hd) :
    parse_waveform_header (encode_waveform_header hd ++ rest) = hd := by
  obtain ⟨h1, h2, h3, h4, h5, h6, h7a, h7b, h8, h9⟩ := hv
  cases hd with
  | mk bn ts sr sc tr pf tc gn crc =>
    dsimp only at h1 h2 h3 h4 h5 h6 h7a h7b h8 h9
    rw [show encode_waveform_header ⟨bn, ts, sr, sc, tr, pf, tc, gn, crc⟩ ++ rest =
      [bn % 256, bn / 256 % 256, bn / 65536 % 256, bn / 16777216 % 256,
       ts % 256, ts / 256 % 256, ts / 65536 % 256, ts / 16777216 % 256,
       sr % 256, sr / 256 % 256, sr / 65536 % 256, sr / 16777216 % 256,
       sc % 256, sc / 256 % 256, 0 % 256, 0 / 256 % 256,
       tr % 256, tr / 256 % 256,
       pf % 256, pf / 256 % 256, pf / 65536 % 256, pf / 16777216 % 256,
       0 % 256, 0 / 256 % 256, 0 / 65536 % 256, 0 / 16777216 % 256,
       (tc % 65536).toNat % 256, (tc % 65536).toNat / 256 % 256,
       gn % 256, 0,
       crc % 256, crc / 256 % 256, crc / 65536 % 256, crc / 16777216 % 256,
       0 % 256, 0 / 256 % 256, 0 / 65536 % 256, 0 / 16777216 % 256] ++ rest
      from rfl, parse_explicit]
    simp only [waveform_header.mk.injEq]
    exact ⟨le32_enc32 h1, le32_enc32 h2, le32_enc32 h3, le16_enc16 h4,
      le16_enc16 h5, le32_enc32 h6, toInt16_encI16 h7a h7b,
      Nat.mod_eq_of_lt h8, le32_enc32 h9⟩

/-- Length of a raw-encoded block. -/
theorem raw_block_bytes_length (hd : waveform_header) (smp : List Int)
    (pad : List Nat) :
    (raw_block_bytes hd smp pad).length = 38 + 3 * smp.length + pad.length := by
  have hfl : ∀ (l : List Int), ((l.map sample_le_bytes).flatten).length = 3 * l.length := by
    intro l
    induction l with
    | nil => rfl
    | cons s rest ih =>
      rw [List.map_cons, List.flatten_cons, List.length_append, ih,
        sample_le_bytes_length, List.length_cons]
      ring
  unfold raw_block_bytes pack_24bit_samples
  rw [List.length_append, List.length_append, hfl,
    show (encode_waveform_header hd).length = 38 from rfl]

theorem getD_append_left (a b : List Nat) (n : Nat) (h : n < a.length) :
    (a ++ b).getD n 0 = a.getD n 0 := by
  induction a generalizing n with
  | nil => simp at h
  | cons x xs ih =>
    cases n with
    | zero => rfl
    | succ m =>
      rw [List.length_cons] at h
      show (xs ++ b).getD m 0 = xs.getD m 0
      exact ih m (by omega)

theorem getD_append_full (a b : List Nat) (n : Nat) :
    (a ++ b).getD (a.length + n) 0 = b.getD n 0 := by
  induction a with
  | nil =>
    rw [show ([] : List Nat).length + n = n from by simp]
    rfl
  | cons x xs ih =>
    rw [show (x :: xs).length + n = (xs.length + n) + 1 from by
      rw [List.length_cons]; omega]
    show (xs ++ b).getD (xs.length + n) 0 = b.getD n 0
    exact ih

/-- Indexing into a flattened list of 3-byte groups. -/
theorem flatten3_getD (l : List (List Nat)) :
    ∀ (i : Nat) (rest : List Nat), (∀ x ∈ l, x.length = 3) → ∀ j, j < 3 →
      i < l.length →
      (l.flatten ++ rest).getD (3 * i + j) 0 = (l.getD i []).getD j 0 := by
  induction l with
  | nil =>
    intro i rest _ j _ hi
    simp at hi
  | cons x xs ih =>
    intro i rest hl j hj hi
    have hx : x.length = 3 := hl x (List.mem_cons_self x xs)
    cases i with
    | zero =>
      rw [List.flatten_cons, List.append_assoc,
        show 3 * 0 + j = j from by omega]
      rw [getD_append_left _ _ _ (by omega)]
      rfl
    | succ m =>
      rw [List.flatten_cons, List.append_assoc,
        show 3 * (m + 1) + j = x.length + (3 * m + j) from by omega]
      rw [getD_append_full]
      show (xs.flatten ++ rest).getD (3 * m + j) 0 = (xs.getD m []).getD j 0
      rw [List.length_cons] at hi
      exact ih m rest (fun y hy => hl y (List.mem_cons_of_mem x hy)) j hj (by omega)

theorem range_map_getD {α : Type} (d : α) (l : List α) :
    (List.range l.length).map (fun i => l.getD i d) = l := by
  induction l with
  | nil => rfl
  | cons x xs ih =>
    rw [List.length_cons, List.range_succ_eq_map, List.map_cons, List.map_map]
    show x :: _ = x :: xs
    congr 1

/-- Unpacking the packed 24-bit wire form recovers the samples (any
trailing padding is never read). -/
theorem unpack_pack (samples : List Int) (pad : List Nat)
    (hs : samples.length = SAMPLES_PER_WAVEFORM)
    (hrange : ∀ s ∈ samples, -8388608 ≤ s ∧ s < 8388608) :
    unpack_24bit_samples (pack_24bit_samples samples ++ pad) SAMPLES_PER_WAVEFORM
      = samples := by
  unfold unpack_24bit_samples pack_24bit_samples
  rw [← hs]
  have hl3 : ∀ x ∈ samples.map sample_le_bytes, x.length = 3 := by
    intro x hx
    obtain ⟨s, _, rfl⟩ := List.mem_map.mp hx
    exact sample_le_bytes_length s
  have key : ∀ i ∈ List.range samples.length,
      sign_extend24 (le24
        (((samples.map sample_le_bytes).flatten ++ pad).getD (i * 3) 0)
        (((samples.map sample_le_bytes).flatten ++ pad).getD (i * 3 + 1) 0)
        (((samples.map sample_le_bytes).flatten ++ pad).getD (i * 3 + 2) 0))
        = samples.getD i 0 := by
    intro i hi
    have hi' := List.mem_range.mp hi
    have hil : i < (samples.map sample_le_bytes).length := by
      rw [List.length_map]
      exact hi'
    rw [show i * 3 = 3 * i + 0 from by omega,
      show 3 * i + 0 + 1 = 3 * i + 1 from by omega,
      show 3 * i + 0 + 2 = 3 * i + 2 from by omega]
    rw [flatten3_getD _ i pad hl3 0 (by omega) hil,
      flatten3_getD _ i pad hl3 1 (by omega) hil,
      flatten3_getD _ i pad hl3 2 (by omega) hil]
    have hmap : (samples.map sample_le_bytes).getD i [] =
        sample_le_bytes (samples.getD i 0) := by
      rw [List.getD_eq_getElem _ _ hil, List.getElem_map,
        List.getD_eq_getElem _ _ hi']
    rw [hmap, sample_le_bytes_eq]
    have hmem : samples.getD i 0 ∈ samples := by
      rw [List.getD_eq_getElem _ _ hi']
      exact List.getElem_mem hi'
    exact sign_extend24_le24_pack (hrange _ hmem).1 (hrange _ hmem).2
  rw [List.map_congr_left key]
  exact range_map_getD 0 samples

/-- The raw decode path on a raw-encoded block recovers the header and the
samples. -/
theorem process_uncompressed_raw (hd : waveform_header) (samples : List Int)
    (pad : List Nat) (hv : header_fields_valid hd)
    (hs : samples.length = SAMPLES_PER_WAVEFORM)
    (hrange : ∀ s ∈ samples, -8388608 ≤ s ∧ s < 8388608) :
    process_uncompressed_block (raw_block_bytes hd samples pad) =
      some (hd, samples) := by
  have hlen := raw_block_bytes_length hd samples pad
  rw [hs] at hlen
  unfold process_uncompressed_block
  rw [if_neg (by
    rw [hlen]
    simp only [WAVEFORM_HEADER_SIZE, SAMPLES_PER_WAVEFORM]
    omega)]
  have hassoc : raw_block_bytes hd samples pad =
      encode_waveform_header hd ++ (pack_24bit_samples samples ++ pad) := by
    unfold raw_block_bytes
    rw [List.append_assoc]
  rw [hassoc, parse_encode_roundtrip hd _ hv]
  rw [show WAVEFORM_HEADER_SIZE = (encode_waveform_header hd).length from rfl,
    List.drop_left, unpack_pack samples pad hs hrange]

/-- The compressed decode path fails outright under the failing inflate
oracle. -/
theorem process_compressed_none (block : List Nat) :
    process_compressed_block inflate_none block = none := by
  unfold process_compressed_block decompress_waveform inflate_none
  split
  · rfl
  · rfl


/-! ## Claim C1: chunking round-trip -/

/-- Chunk offsets of in-range chunks lie inside the block. -/
theorem chunk_offset_lt (L p i : Nat) (hp : 0 < p) (hi : i < chunk_count L p) :
    i * p < L := by
  unfold chunk_count at hi
  rcases Nat.eq_zero_or_pos L with h0 | h0
  · rw [h0, Nat.zero_add, Nat.div_eq_of_lt (by omega)] at hi
    omega
  · have h1 : (i + 1) * p ≤ ((L + p - 1) / p) * p := Nat.mul_le_mul_right p hi
    have h2 : ((L + p - 1) / p) * p ≤ L + p - 1 := Nat.div_mul_le_self _ p
    rw [Nat.add_mul, Nat.one_mul] at h1
    omega

/-- A block has at most as many chunks as bytes. -/
theorem chunk_count_le (L p : Nat) (hp : 0 < p) : chunk_count L p ≤ L := by
  unfold chunk_count
  have hLp : L ≤ L * p := Nat.le_mul_of_pos_right L hp
  calc (L + p - 1) / p ≤ (L * p + (p - 1)) / p := Nat.div_le_div_right (by omega)
    _ = (p * L + (p - 1)) / p := by rw [Nat.mul_comm]
    _ = L + (p - 1) / p := Nat.mul_add_div hp L (p - 1)
    _ = L := by rw [Nat.div_eq_of_lt (by omega), Nat.add_zero]

/-- A nonempty block has at least one chunk. -/
theorem chunk_count_pos (L p : Nat) (hp : 0 < p) (hL : 0 < L) :
    0 < chunk_count L p := by
  unfold chunk_count
  exact (Nat.one_le_div_iff hp).mpr (by omega)

/-- The chunk slices of a block, concatenated in order, rebuild the block. -/
theorem chunk_join (p : Nat) (hp : 0 < p) (n : Nat) :
    ∀ l : List Nat, l.length ≤ n * p →
      ((List.range (chunk_count l.length p)).map (fun i => chunk_slice l p i)).flatten
        = l := by
  induction n with
  | zero =>
    intro l hl
    rw [Nat.zero_mul, Nat.le_zero] at hl
    have hnil : l = [] := List.eq_nil_of_length_eq_zero hl
    subst hnil
    rw [show chunk_count ([] : List Nat).length p = 0 from by
      unfold chunk_count
      rw [List.length_nil, Nat.zero_add]
      exact Nat.div_eq_of_lt (by omega)]
    rfl
  | succ n ih =>
    intro l hl
    by_cases hL : l.length ≤ p
    · rcases Nat.eq_zero_or_pos l.length with h0 | h0
      · have hnil : l = [] := List.eq_nil_of_length_eq_zero h0
        subst hnil
        rw [show chunk_count ([] : List Nat).length p = 0 from by
          unfold chunk_count
          rw [List.length_nil, Nat.zero_add]
          exact Nat.div_eq_of_lt (by omega)]
        rfl
      · have hcc : chunk_count l.length p = 1 := by
          unfold chunk_count
          exact Nat.div_eq_of_lt_le (by omega) (by omega)
        rw [hcc]
        have hsz : chunk_size_at l.length p 0 = l.length := by
          unfold chunk_size_at
          split <;> omega
        show chunk_slice l p 0 ++ [].flatten = l
        unfold chunk_slice
        rw [hsz, Nat.zero_mul, List.drop_zero, List.take_length, List.flatten_nil,
          List.append_nil]
    · have hpl : p < l.length := by omega
      have hcc : chunk_count l.length p = chunk_count (l.length - p) p + 1 := by
        unfold chunk_count
        rw [show l.length + p - 1 = (l.length - p + p - 1) + p from by omega,
          Nat.add_div_right _ hp]
      rw [hcc, List.range_succ_eq_map, List.map_cons, List.map_map,
        List.flatten_cons]
      have hslice0 : chunk_slice l p 0 = l.take p := by
        unfold chunk_slice chunk_size_at
        rw [if_neg (by omega), Nat.zero_mul, List.drop_zero]
      have hsucc : ∀ i, chunk_slice l p (i + 1) = chunk_slice (l.drop p) p i := by
        intro i
        unfold chunk_slice chunk_size_at
        rw [List.length_drop, List.drop_drop,
          show p + i * p = (i + 1) * p from by ring,
          show (i + 1) * p = i * p + p from by ring]
        congr 1
        split <;> split <;> omega
      have hmapeq : (List.range (chunk_count (l.length - p) p)).map
          ((fun i => chunk_slice l p i) ∘ Nat.succ) =
          (List.range (chunk_count (l.length - p) p)).map
          (fun i => chunk_slice (l.drop p) p i) := by
        apply List.map_congr_left
        intro i _
        exact hsucc i
      rw [hmapeq, hslice0]
      have hdl : (l.drop p).length = l.length - p := List.length_drop p l
      rw [show chunk_count (l.length - p) p = chunk_count (l.drop p).length p from by
        rw [hdl]]
      rw [ih (l.drop p) (by rw [hdl, Nat.succ_mul] at *; omega)]
      exact List.take_append_drop p l


/-! ## Claim C1: feeding one block chunk-by-chunk -/

theorem c1_state_bc (bn T : Nat) (block : List Nat) (payload k bytes : Nat) :
    (c1_state bn T block payload k bytes).block_chunks =
      if k = 0 then []
      else [(bn, (List.range k).map (fun i => (i, chunk_slice block payload i)))] := rfl

theorem c1_state_bec (bn T : Nat) (block : List Nat) (payload k bytes : Nat) :
    (c1_state bn T block payload k bytes).block_expected_chunks =
      if k = 0 then [] else [(bn, T)] := rfl

/-- The parsed header fields of `mk_chunk_frame`. -/
theorem mk_frame_fields (bn i payload : Nat) (block : List Nat)
    (hbn : bn < 65536) (hi : i < 65536) (hps : payload < 65536)
    (htot : chunk_count block.length payload < 65536)
    (hoff : i * payload < block.length) :
    pc_bn (mk_chunk_frame bn i payload block) = bn ∧
    pc_cn (mk_chunk_frame bn i payload block) = i ∧
    pc_cs (mk_chunk_frame bn i payload block) = chunk_size_at block.length payload i ∧
    pc_total (mk_chunk_frame bn i payload block) = chunk_count block.length payload ∧
    pc_payload (mk_chunk_frame bn i payload block) = chunk_slice block payload i ∧
    ¬ (mk_chunk_frame bn i payload block).length < 12 := by
  have hsz : chunk_size_at block.length payload i < 65536 := by
    unfold chunk_size_at
    split <;> omega
  have hcs : pc_cs (mk_chunk_frame bn i payload block) =
      chunk_size_at block.length payload i := by
    show le16 (chunk_size_at block.length payload i % 256)
      (chunk_size_at block.length payload i / 256 % 256)
      = chunk_size_at block.length payload i
    exact le16_enc16 hsz
  refine ⟨?_, ?_, hcs, ?_, ?_, ?_⟩
  · show le16 (bn % 256) (bn / 256 % 256) = bn
    exact le16_enc16 hbn
  · show le16 (i % 256) (i / 256 % 256) = i
    exact le16_enc16 hi
  · show le16 (chunk_count block.length payload % 256)
      (chunk_count block.length payload / 256 % 256) = chunk_count block.length payload
    exact le16_enc16 htot
  · unfold pc_payload
    rw [hcs, show (mk_chunk_frame bn i payload block).drop 12 =
      chunk_slice block payload i from rfl]
    unfold chunk_slice
    rw [List.take_take, Nat.min_self]
  · rw [show (mk_chunk_frame bn i payload block).length =
      (chunk_slice block payload i).length + 12 from rfl]
    omega

/-- The chunk maps after storing chunk `k` of a block in flight. -/
theorem c1_maps (bn payload k bytes : Nat) (block : List Nat)
    (hp : 0 < payload) (hps : payload < 65536) (hbn16 : bn < 65536)
    (htot : chunk_count block.length payload < 65536)
    (hk : k < chunk_count block.length payload) :
    pc_bc1 (c1_state bn (chunk_count block.length payload) block payload k bytes)
        (mk_chunk_frame bn k payload block) =
      [(bn, (List.range (k + 1)).map (fun i => (i, chunk_slice block payload i)))] ∧
    pc_bec0 (c1_state bn (chunk_count block.length payload) block payload k bytes)
        (mk_chunk_frame bn k payload block) =
      [(bn, chunk_count block.length payload)] := by
  obtain ⟨hfbn, hfcn, hfcs, hftot, hfp, hf12⟩ :=
    mk_frame_fields bn k payload block hbn16 (by omega) hps htot
      (chunk_offset_lt _ _ _ hp hk)
  by_cases hk0 : k = 0
  · subst hk0
    constructor
    · rw [pc_bc1_of_empty _ _ rfl, hfbn, hfcn, hfp]
      rfl
    · unfold pc_bec0
      rw [if_neg (by simp [c1_state, acontains, alookup]), hfbn, hftot]
      rfl
  · have hbcv : (c1_state bn (chunk_count block.length payload) block payload k
        bytes).block_chunks =
        [(bn, (List.range k).map (fun i => (i, chunk_slice block payload i)))] := by
      rw [c1_state_bc, if_neg hk0]
    have hcont : acontains (c1_state bn (chunk_count block.length payload) block
        payload k bytes).block_chunks (pc_bn (mk_chunk_frame bn k payload block))
        = true := by
      rw [hbcv, hfbn]
      unfold acontains
      rw [alookup_cons, if_pos rfl]
      rfl
    have hnotin : acontains ((List.range k).map
        (fun i => (i, chunk_slice block payload i))) k = false := by
      unfold acontains
      rw [alookup_range_map, if_neg (lt_irrefl k)]
      rfl
    constructor
    · unfold pc_bc1
      rw [if_pos hcont, hbcv, hfbn]
      unfold amodify
      rw [List.map_cons, List.map_nil]
      dsimp only
      rw [if_pos rfl, hfcn, hfp, ainsert_neg _ _ _ hnotin, List.range_succ,
        List.map_append]
      rfl
    · unfold pc_bec0
      rw [if_pos hcont, c1_state_bec, if_neg hk0]

/-- Feeding a non-final chunk stores it and fires no callback. -/
theorem c1_feed_store (inflate : List Nat → Option (List Nat)) (bn payload : Nat)
    (block : List Nat) (k bytes : Nat)
    (hp : 0 < payload) (hps : payload < 65536) (hbn16 : bn < 65536)
    (hbnT : bn < TOTAL_BLOCKS) (htot : chunk_count block.length payload < 65536)
    (hk : k + 1 < chunk_count block.length payload) :
    transfer_session_process_chunk inflate
      (c1_state bn (chunk_count block.length payload) block payload k bytes)
      (mk_chunk_frame bn k payload block) =
    (c1_state bn (chunk_count block.length payload) block payload (k + 1)
      ((bytes + chunk_size_at block.length payload k) % 4294967296), [], true) := by
  obtain ⟨hfbn, hfcn, hfcs, hftot, hfp, hf12⟩ :=
    mk_frame_fields bn k payload block hbn16 (by omega) hps htot
      (chunk_offset_lt _ _ _ hp (by omega))
  obtain ⟨hbc1, hbec⟩ := c1_maps bn payload k bytes block hp hps hbn16 htot (by omega)
  have hinner : pc_inner (c1_state bn (chunk_count block.length payload) block
      payload k bytes) (mk_chunk_frame bn k payload block) =
      (List.range (k + 1)).map (fun i => (i, chunk_slice block payload i)) := by
    unfold pc_inner
    rw [hbc1, hfbn, alookup_cons, if_pos rfl]
    rfl
  have hbnle : ¬ TOTAL_BLOCKS ≤ pc_bn (mk_chunk_frame bn k payload block) := by
    rw [hfbn]
    omega
  have hnc : (pc_inner (c1_state bn (chunk_count block.length payload) block
      payload k bytes) (mk_chunk_frame bn k payload block)).length ≠
      pc_total (mk_chunk_frame bn k payload block) := by
    rw [hinner, hftot, List.length_map, List.length_range]
    omega
  rw [process_chunk_store inflate _ hf12 hbnle hnc]
  unfold pc_s1
  rw [hbc1, hbec, hfcs]
  unfold c1_state
  dsimp only
  rw [if_neg (Nat.succ_ne_zero k), if_neg (Nat.succ_ne_zero k),
    show (k + 1) % 4294967296 = k + 1 from by omega]

/-- Feeding the final chunk assembles the block, decodes it, and fires the
per-block callbacks. -/
theorem c1_feed_last (inflate : List Nat → Option (List Nat)) (bn payload k bytes : Nat)
    (block : List Nat)
    (hp : 0 < payload) (hps : payload < 65536) (hbn16 : bn < 65536)
    (hbnT : bn < TOTAL_BLOCKS) (htot : chunk_count block.length payload < 65536)
    (hk1 : k + 1 = chunk_count block.length payload) :
    transfer_session_process_chunk inflate
      (c1_state bn (chunk_count block.length payload) block payload k bytes)
      (mk_chunk_frame bn k payload block) =
    (pc_s2 (c1_state bn (chunk_count block.length payload) block payload k bytes)
        (mk_chunk_frame bn k payload block),
      c1_wevs inflate block ++
        (if 0 < bn ∧ (bn + 1) % ACK_INTERVAL = 0 then [rx_event.ack bn] else []) ++
        [rx_event.progress], true) := by
  obtain ⟨hfbn, hfcn, hfcs, hftot, hfp, hf12⟩ :=
    mk_frame_fields bn k payload block hbn16 (by omega) hps htot
      (chunk_offset_lt _ _ _ hp (by omega))
  obtain ⟨hbc1, hbec⟩ := c1_maps bn payload k bytes block hp hps hbn16 htot (by omega)
  have hinner : pc_inner (c1_state bn (chunk_count block.length payload) block
      payload k bytes) (mk_chunk_frame bn k payload block) =
      (List.range (k + 1)).map (fun i => (i, chunk_slice block payload i)) := by
    unfold pc_inner
    rw [hbc1, hfbn, alookup_cons, if_pos rfl]
    rfl
  have hbnle : ¬ TOTAL_BLOCKS ≤ pc_bn (mk_chunk_frame bn k payload block) := by
    rw [hfbn]
    omega
  have hc : (pc_inner (c1_state bn (chunk_count block.length payload) block
      payload k bytes) (mk_chunk_frame bn k payload block)).length =
      pc_total (mk_chunk_frame bn k payload block) := by
    rw [hinner, hftot, List.length_map, List.length_range]
    exact hk1
  have hblock : pc_block (c1_state bn (chunk_count block.length payload) block
      payload k bytes) (mk_chunk_frame bn k payload block) = block := by
    unfold pc_block
    rw [hinner, hftot, ← hk1]
    unfold assemble_block
    rw [List.map_congr_left (show ∀ j ∈ List.range (k + 1),
      (alookup ((List.range (k + 1)).map
        (fun i => (i, chunk_slice block payload i))) j).getD []
        = chunk_slice block payload j from by
      intro j hj
      rw [alookup_range_map, if_pos (List.mem_range.mp hj)]
      rfl)]
    rw [hk1]
    exact chunk_join payload hp block.length block
      (Nat.le_mul_of_pos_right block.length hp)
  rw [process_chunk_complete inflate _ hf12 hbnle hc]
  rw [if_neg (show ¬ (pc_rb (c1_state bn (chunk_count block.length payload) block
      payload k bytes) (mk_chunk_frame bn k payload block)).length = TOTAL_BLOCKS
      from by
    unfold pc_rb
    rw [show (c1_state bn (chunk_count block.length payload) block payload k
      bytes).received_blocks = [] from rfl,
      ainsert_neg ([] : List (Nat × List Nat)) _ _ rfl]
    simp [TOTAL_BLOCKS])]
  have hwevs : pc_wevs inflate (c1_state bn (chunk_count block.length payload)
      block payload k bytes) (mk_chunk_frame bn k payload block) =
      c1_wevs inflate block := by
    unfold pc_wevs pc_decoded pc_is_compressed c1_wevs
    rw [hblock]
    by_cases hlt : block.length < BLOCK_SIZE
    · rw [if_pos (decide_eq_true hlt), if_pos hlt]
    · rw [if_neg (show ¬ (decide (block.length < BLOCK_SIZE) = true) from by
        simp [hlt]), if_neg hlt]
  have haevs : pc_aevs (mk_chunk_frame bn k payload block) =
      (if 0 < bn ∧ (bn + 1) % ACK_INTERVAL = 0 then [rx_event.ack bn] else []) := by
    unfold pc_aevs
    rw [hfbn]
  rw [hwevs, haevs]

/-- The receiver state after feeding chunks `0..k-1` of one block to a
freshly started session. -/
theorem c1_run_prefix (inflate : List Nat → Option (List Nat)) (bn payload : Nat)
    (block : List Nat)
    (hp : 0 < payload) (hps : payload < 65536) (hbn16 : bn < 65536)
    (hbnT : bn < TOTAL_BLOCKS) (htot : chunk_count block.length payload < 65536) :
    ∀ k, k < chunk_count block.length payload →
      ∃ bytes, run_chunks inflate (transfer_session_start transfer_session_create)
        ((List.range k).map (fun i => mk_chunk_frame bn i payload block)) =
      (c1_state bn (chunk_count block.length payload) block payload k bytes, []) := by
  intro k
  induction k with
  | zero =>
    intro _
    exact ⟨0, rfl⟩
  | succ k ih =>
    intro hk1
    obtain ⟨bytes, hrun⟩ := ih (by omega)
    refine ⟨(bytes + chunk_size_at block.length payload k) % 4294967296, ?_⟩
    rw [List.range_succ, List.map_append, run_chunks_append, hrun]
    dsimp only [List.map_cons, List.map_nil]
    rw [show run_chunks inflate (c1_state bn (chunk_count block.length payload)
        block payload k bytes) [mk_chunk_frame bn k payload block] =
      (c1_state bn (chunk_count block.length payload) block payload (k + 1)
        ((bytes + chunk_size_at block.length payload k) % 4294967296), []) from by
      rw [run_chunks_eq, List.foldl_cons]
      dsimp only
      rw [List.foldl_nil,
        c1_feed_store inflate bn payload block k bytes hp hps hbn16 hbnT htot hk1]
      rfl]
    rfl

/-- Feeding one whole block chunk-by-chunk to a freshly started session
fires exactly the decode outcome's waveform events, the block ack if due,
and one progress callback. -/
theorem c1_run (inflate : List Nat → Option (List Nat)) (bn payload : Nat)
    (block : List Nat)
    (hp : 0 < payload) (hps : payload < 65536) (hbn16 : bn < 65536)
    (hbnT : bn < TOTAL_BLOCKS) (htot : chunk_count block.length payload < 65536)
    (hL : 0 < block.length) :
    ∃ s', run_chunks inflate (transfer_session_start transfer_session_create)
        (mk_chunks bn payload block) =
      (s', c1_wevs inflate block ++
        (if 0 < bn ∧ (bn + 1) % ACK_INTERVAL = 0 then [rx_event.ack bn] else []) ++
        [rx_event.progress]) := by
  have hTpos : 0 < chunk_count block.length payload := chunk_count_pos _ _ hp hL
  obtain ⟨m, hm⟩ : ∃ m, chunk_count block.length payload = m + 1 :=
    ⟨chunk_count block.length payload - 1, by omega⟩
  obtain ⟨bytes, hrun⟩ := c1_run_prefix inflate bn payload block hp hps hbn16 hbnT
    htot m (by omega)
  have hmk : mk_chunks bn payload block =
      ((List.range m).map (fun i => mk_chunk_frame bn i payload block)) ++
        [mk_chunk_frame bn m payload block] := by
    unfold mk_chunks
    rw [hm, List.range_succ, List.map_append]
    rfl
  refine ⟨pc_s2 (c1_state bn (chunk_count block.length payload) block payload m
    bytes) (mk_chunk_frame bn m payload block), ?_⟩
  rw [hmk, run_chunks_append, hrun]
  dsimp only
  rw [show run_chunks inflate (c1_state bn (chunk_count block.length payload)
      block payload m bytes) [mk_chunk_frame bn m payload block] =
    (pc_s2 (c1_state bn (chunk_count block.length payload) block payload m bytes)
        (mk_chunk_frame bn m payload block),
      c1_wevs inflate block ++
        (if 0 < bn ∧ (bn + 1) % ACK_INTERVAL = 0 then [rx_event.ack bn] else []) ++
        [rx_event.progress]) from by
    rw [run_chunks_eq, List.foldl_cons]
    dsimp only
    rw [List.foldl_nil,
      c1_feed_last inflate bn payload m bytes block hp hps hbn16 hbnT htot hm.symm]
    rfl]
  rfl

/-- Only waveform callbacks survive `waveform_events`. -/
theorem waveform_events_append (a b : List rx_event) :
    waveform_events (a ++ b) = waveform_events a ++ waveform_events b := by
  induction a with
  | nil => rfl
  | cons e rest ih =>
    cases e with
    | waveform hh ss cc =>
      show (hh, ss, cc) :: waveform_events (rest ++ b) = _
      rw [ih]
      rfl
    | ack n => exact ih
    | progress => exact ih
    | completion => exact ih


/-! ## Claim C1 -/

/-- C1 (amended): a raw-encoded block (38-byte header, 2376 packed 24-bit
samples) is 7166 bytes, which the receiver's size heuristic
(`size < BLOCK_SIZE = 7168` ⇒ compressed) would misclassify; the block must
be padded to the nominal `BLOCK_SIZE`.  For every such padded raw block and
every chunk payload size `1 ≤ payload ≤ 244`, chunking the block and
feeding every chunk in order to a started receiver yields exactly one
on-waveform callback, with `is_compressed = false`, the source header and
the source samples. -/
theorem spec_c1 (inflate : List Nat → Option (List Nat)) (hd : waveform_header)
    (samples : List Int) (pad : List Nat) (bn payload : Nat)
    (hv : header_fields_valid hd) (hs : samples.length = SAMPLES_PER_WAVEFORM)
    (hrange : ∀ s ∈ samples, -8388608 ≤ s ∧ s < 8388608)
    (hlen : (raw_block_bytes hd samples pad).length = BLOCK_SIZE)
    (hbn : bn < TOTAL_BLOCKS) (hp : 0 < payload) (hps : payload ≤ 244) :
    waveform_events
      (run_chunks inflate (transfer_session_start transfer_session_create)
        (mk_chunks bn payload (raw_block_bytes hd samples pad))).2
      = [(hd, samples, false)] := by
  have hbn16 : bn < 65536 := by
    have hT : TOTAL_BLOCKS = 1800 := rfl
    omega
  have hL : (raw_block_bytes hd samples pad).length = 7168 := by
    rw [hlen]
    rfl
  have htot : chunk_count (raw_block_bytes hd samples pad).length payload
      < 65536 := by
    have h1 := chunk_count_le (raw_block_bytes hd samples pad).length payload hp
    omega
  obtain ⟨s2, hrun⟩ := c1_run inflate bn payload (raw_block_bytes hd samples pad)
    hp (by omega) hbn16 hbn htot (by rw [hL]; omega)
  rw [hrun]
  show waveform_events (c1_wevs inflate (raw_block_bytes hd samples pad) ++
    (if 0 < bn ∧ (bn + 1) % ACK_INTERVAL = 0 then [rx_event.ack bn] else []) ++
    [rx_event.progress]) = [(hd, samples, false)]
  rw [waveform_events_append, waveform_events_append,
    show waveform_events (if 0 < bn ∧ (bn + 1) % ACK_INTERVAL = 0
      then [rx_event.ack bn] else []) = [] from by split <;> rfl,
    show waveform_events [rx_event.progress] = [] from rfl,
    List.append_nil, List.append_nil]
  unfold c1_wevs
  rw [if_neg (by rw [hL]; decide), process_uncompressed_raw hd samples pad hv hs hrange]
  rw [show decide ((raw_block_bytes hd samples pad).length < BLOCK_SIZE) = false
    from by rw [hL]; decide]
  rfl

/-- Witness for C1 at a concrete header, 2376 zero samples, two padding
bytes, block 0, payload 244. -/
theorem spec_c1_witness :
    waveform_events
      (run_chunks inflate_none (transfer_session_start transfer_session_create)
        (mk_chunks 0 244 (raw_block_bytes ⟨1, 2, 3, 2376, 4, 5, 6, 7, 8⟩
          (List.replicate 2376 0) (List.replicate 2 0)))).2
      = [(⟨1, 2, 3, 2376, 4, 5, 6, 7, 8⟩, List.replicate 2376 0, false)] :=
  spec_c1 inflate_none ⟨1, 2, 3, 2376, 4, 5, 6, 7, 8⟩ (List.replicate 2376 0)
    (List.replicate 2 0) 0 244 (by decide)
    (by rw [List.length_replicate]; rfl)
    (fun s hsm => by rw [List.eq_of_mem_replicate hsm]; exact ⟨by decide, by decide⟩)
    (by rw [raw_block_bytes_length, List.length_replicate, List.length_replicate]
        decide)
    (by decide) (by decide) (by decide)

/-- Counterexample to C1 as stated: an UNPADDED raw block is 7166 bytes,
`7166 < BLOCK_SIZE` makes the size heuristic treat it as compressed, and
feeding its chunks produces NO on-waveform callback at all (decode takes
the compressed path and fails), not one with `is_compressed = false`. -/
theorem spec_c1_cex :
    (raw_block_bytes ⟨0, 0, 0, 2376, 0, 0, 0, 0, 0⟩
      (List.replicate 2376 0) []).length = 7166 ∧
    7166 < BLOCK_SIZE ∧
    waveform_events
      (run_chunks inflate_none (transfer_session_start transfer_session_create)
        (mk_chunks 0 244 (raw_block_bytes ⟨0, 0, 0, 2376, 0, 0, 0, 0, 0⟩
          (List.replicate 2376 0) []))).2 = [] := by
  have hlen : (raw_block_bytes ⟨0, 0, 0, 2376, 0, 0, 0, 0, 0⟩
      (List.replicate 2376 (0 : Int)) []).length = 7166 := by
    rw [raw_block_bytes_length, List.length_replicate]
    decide
  refine ⟨hlen, by decide, ?_⟩
  have htot : chunk_count (raw_block_bytes ⟨0, 0, 0, 2376, 0, 0, 0, 0, 0⟩
      (List.replicate 2376 (0 : Int)) []).length 244 < 65536 := by
    have h1 := chunk_count_le (raw_block_bytes ⟨0, 0, 0, 2376, 0, 0, 0, 0, 0⟩
      (List.replicate 2376 (0 : Int)) []).length 244 (by decide)
    omega
  obtain ⟨s2, hrun⟩ := c1_run inflate_none 0 244
    (raw_block_bytes ⟨0, 0, 0, 2376, 0, 0, 0, 0, 0⟩ (List.replicate 2376 0) [])
    (by decide) (by decide) (by decide) (by decide) htot (by rw [hlen]; decide)
  rw [hrun]
  show waveform_events (c1_wevs inflate_none (raw_block_bytes
      ⟨0, 0, 0, 2376, 0, 0, 0, 0, 0⟩ (List.replicate 2376 0) []) ++
    (if 0 < 0 ∧ (0 + 1) % ACK_INTERVAL = 0 then [rx_event.ack 0] else []) ++
    [rx_event.progress]) = []
  rw [waveform_events_append, waveform_events_append,
    show waveform_events (if 0 < 0 ∧ (0 + 1) % ACK_INTERVAL = 0
      then [rx_event.ack 0] else []) = [] from by split <;> rfl,
    show waveform_events [rx_event.progress] = [] from rfl,
    List.append_nil, List.append_nil]
  unfold c1_wevs
  rw [if_pos (by rw [hlen]; decide), process_compressed_none]
  rfl

end BLETransfer
